import Mathlib

/-!
Formal model of `src/convert.py` from the text-me repository: the SMS/MMS
backup conversion core (Android backup XML ↔ intermediary `Message` records ↔
Windows 10 Mobile backup XML), together with proofs about the properties the
specification claims for it.

Python integers are modelled as `Int` (arbitrary precision, like Python),
Python `//` and `%` as floor division `Int.fdiv` / `Int.fmod` (Python
semantics for all signs), Python strings as `String`, `None`-able values as
`Option`, and raising code as `Except String`-valued functions.
-/

set_option maxRecDepth 2000

deriving instance DecidableEq for Except

namespace TextMe

/-- Python `//` (floor division). -/
def pyDiv (a b : Int) : Int := Int.fdiv a b

/-- Python `%` (sign follows the divisor, as `Int.fmod`). -/
def pyMod (a b : Int) : Int := Int.fmod a b

theorem pyDiv_eq_ediv (a : Int) {b : Int} (h : 0 ≤ b) : pyDiv a b = a / b :=
  Int.fdiv_eq_ediv a h

theorem pyMod_eq_emod (a : Int) {b : Int} (h : 0 ≤ b) : pyMod a b = a % b :=
  Int.fmod_eq_emod a h

/-! ### Decimal printing and parsing

`intToStr` models Python `str` on an `int`; `strToInt` models Python `int` on
a string (restricted to the plain `-?[0-9]+` shapes the converter ever
produces; Python additionally accepts surrounding whitespace, a leading `+`
and `_` separators, none of which occur in the documents modelled here). -/

/-- The character for a single decimal digit `n < 10`. -/
def digChar (n : Nat) : Char := Char.ofNat (48 + n)

/-- The decimal value of a digit character. -/
def digVal (c : Char) : Nat := c.toNat - 48

/-- Decimal digits of `n`, most significant first.  The `fuel` argument only
makes the recursion structural; `natToStrChars` supplies enough of it. -/
def natToStrAux : Nat → Nat → List Char
  | 0, _ => []
  | fuel + 1, n => if n < 10 then [digChar n] else natToStrAux fuel (n / 10) ++ [digChar (n % 10)]

def natToStrChars (n : Nat) : List Char := natToStrAux (n + 1) n

/-- Python `str` on an integer: canonical decimal, `-` sign for negatives. -/
def intToStr : Int → String
  | .ofNat n => String.mk (natToStrChars n)
  | .negSucc m => String.mk ('-' :: natToStrChars (m + 1))

/-- Parse a non-empty all-digit character list. -/
def parseDigits (l : List Char) : Option Nat :=
  if l ≠ [] ∧ l.all Char.isDigit then
    some (l.foldl (fun a c => 10 * a + digVal c) 0)
  else none

/-- Python `int` on a string (see module comment for the modelled domain). -/
def strToInt (s : String) : Option Int :=
  match s.data with
  | [] => none
  | c :: cs =>
    if c = '-' then (parseDigits cs).map (fun n => -(n : Int))
    else (parseDigits (c :: cs)).map (fun n => (n : Int))

theorem digChar_isDigit {n : Nat} (h : n < 10) : (digChar n).isDigit = true := by
  interval_cases n <;> decide

theorem digVal_digChar {n : Nat} (h : n < 10) : digVal (digChar n) = n := by
  interval_cases n <;> decide

theorem digChar_ne_dash {n : Nat} (h : n < 10) : digChar n ≠ '-' := by
  interval_cases n <;> decide

theorem natToStrAux_all_digits (fuel n : Nat) :
    (natToStrAux fuel n).all Char.isDigit = true := by
  induction fuel generalizing n with
  | zero => rfl
  | succ fuel ih =>
    rw [natToStrAux]
    split
    · next h => simp [digChar_isDigit h]
    · next h =>
      simp only [List.all_append, ih, Bool.true_and, List.all_cons, List.all_nil,
        Bool.and_true]
      exact digChar_isDigit (Nat.mod_lt _ (by norm_num))

theorem natToStrAux_ne_nil (fuel n : Nat) (h : 0 < fuel) : natToStrAux fuel n ≠ [] := by
  cases fuel with
  | zero => omega
  | succ fuel =>
    rw [natToStrAux]
    split
    · simp
    · simp

theorem foldl_digits_append (l : List Char) (c : Char) (a : Nat) :
    (l ++ [c]).foldl (fun a c => 10 * a + digVal c) a
      = 10 * (l.foldl (fun a c => 10 * a + digVal c) a) + digVal c := by
  simp [List.foldl_append]

theorem natToStrAux_foldl (fuel n : Nat) (h : n < fuel) :
    (natToStrAux fuel n).foldl (fun a c => 10 * a + digVal c) 0 = n := by
  induction fuel generalizing n with
  | zero => omega
  | succ fuel ih =>
    rw [natToStrAux]
    split
    · next hlt => simp [digVal_digChar hlt]
    · next hge =>
      have h10 : 10 ≤ n := by omega
      have hrec : n / 10 < fuel := by
        have : n / 10 < n := Nat.div_lt_self (by omega) (by norm_num)
        omega
      rw [foldl_digits_append, ih _ hrec, digVal_digChar (Nat.mod_lt _ (by norm_num))]
      omega

theorem parseDigits_natToStrChars (n : Nat) : parseDigits (natToStrChars n) = some n := by
  rw [parseDigits, if_pos ⟨natToStrAux_ne_nil _ _ (by omega), natToStrAux_all_digits _ _⟩,
    natToStrChars, natToStrAux_foldl _ _ (by omega)]

theorem natToStrChars_head_digit (n : Nat) :
    ∃ c cs, natToStrChars n = c :: cs ∧ c.isDigit = true := by
  have hne := natToStrAux_ne_nil (n + 1) n (by omega)
  have hall := natToStrAux_all_digits (n + 1) n
  rcases hcs : natToStrAux (n + 1) n with _ | ⟨c, cs⟩
  · exact absurd hcs hne
  · refine ⟨c, cs, hcs, ?_⟩
    rw [hcs] at hall
    simp only [List.all_cons, Bool.and_eq_true] at hall
    exact hall.1

/-- Printing then parsing an integer is the identity. -/
theorem strToInt_intToStr (i : Int) : strToInt (intToStr i) = some i := by
  cases i with
  | ofNat n =>
    obtain ⟨c, cs, hcons, hdig⟩ := natToStrChars_head_digit n
    have hnd : c ≠ '-' := by
      intro h; rw [h] at hdig; exact absurd hdig (by decide)
    show strToInt (String.mk (natToStrChars n)) = some (Int.ofNat n)
    rw [hcons]
    simp only [strToInt]
    rw [if_neg hnd, ← hcons, parseDigits_natToStrChars]
    rfl
  | negSucc m =>
    show strToInt (String.mk ('-' :: natToStrChars (m + 1))) = some (Int.negSucc m)
    simp only [strToInt]
    rw [if_pos trivial, parseDigits_natToStrChars]
    simp [Int.negSucc_eq]

/-! ### Python `str.split` / `str.join` on a single-character separator -/

/-- Python `s.split(sep)` for a one-character separator, on character lists:
`split("") = [""]`, empty pieces are kept. -/
def splitChar (sep : Char) : List Char → List (List Char)
  | [] => [[]]
  | c :: cs =>
    if c = sep then [] :: splitChar sep cs
    else
      match splitChar sep cs with
      | [] => [[c]]
      | p :: ps => (c :: p) :: ps

/-- Python `sep.join(pieces)` for a one-character separator. -/
def joinChar (sep : Char) : List (List Char) → List Char
  | [] => []
  | [p] => p
  | p :: ps => p ++ sep :: joinChar sep ps

theorem splitChar_ne_nil (sep : Char) (l : List Char) : splitChar sep l ≠ [] := by
  cases l with
  | nil => simp [splitChar]
  | cons c cs =>
    rw [splitChar]
    split
    · simp
    · split <;> simp

/-- Splitting a separator-free list yields one piece. -/
theorem splitChar_sepfree (sep : Char) (p : List Char) (hp : sep ∉ p) :
    splitChar sep p = [p] := by
  induction p with
  | nil => rfl
  | cons c cs ih =>
    have hc : c ≠ sep := fun h => hp (by simp [h])
    have hcs : sep ∉ cs := fun h => hp (by simp [h])
    rw [splitChar, if_neg hc, ih hcs]

/-- A separator-free prefix followed by the separator splits off as one piece. -/
theorem splitChar_sepfree_append (sep : Char) (p rest : List Char) (hp : sep ∉ p) :
    splitChar sep (p ++ sep :: rest) = p :: splitChar sep rest := by
  induction p with
  | nil => rw [List.nil_append, splitChar, if_pos rfl]
  | cons c cs ih =>
    have hc : c ≠ sep := fun h => hp (by simp [h])
    have hcs : sep ∉ cs := fun h => hp (by simp [h])
    rw [List.cons_append, splitChar, if_neg hc, ih hcs]

/-- Splitting after joining recovers the pieces, provided there is at least one
piece and no piece contains the separator. -/
theorem splitChar_joinChar (sep : Char) (ps : List (List Char)) (hne : ps ≠ [])
    (hsep : ∀ p ∈ ps, sep ∉ p) : splitChar sep (joinChar sep ps) = ps := by
  induction ps with
  | nil => exact absurd rfl hne
  | cons p ps ih =>
    have hp : sep ∉ p := hsep p (by simp)
    cases ps with
    | nil => exact splitChar_sepfree sep p hp
    | cons q qs =>
      have hjoin : joinChar sep (p :: q :: qs) = p ++ sep :: joinChar sep (q :: qs) := rfl
      rw [hjoin, splitChar_sepfree_append sep p _ hp,
        ih (by simp) (fun r hr => hsep r (by simp [hr]))]

/-! ### The address normalizer (`norm` in `convert.py`) -/

/-- One character of the regex class `[0-9() \-+]` from `norm`. -/
def isPhoneChar (c : Char) : Bool :=
  c.isDigit || c = '(' || c = ')' || c = ' ' || c = '-' || c = '+'

/-- Python `l[-10:]`: the last `n` elements (all of them when shorter). -/
def lastN (n : Nat) (l : List Char) : List Char := l.drop (l.length - n)

/-- `norm` from `convert.py`: simplify phone-number-shaped addresses to their
last 10 digits; leave everything else (including `None`) unchanged.
`re.fullmatch("[0-9() \\-+]*", addr)` is `addr.data.all isPhoneChar`; inside
that branch every character is an ASCII digit or punctuation, so Python's
`str.isdigit` coincides with `Char.isDigit`. -/
def norm (addr : Option String) : Option String :=
  match addr with
  | some s =>
    if s.data.all isPhoneChar then
      some (String.mk (lastN 10 (s.data.filter Char.isDigit)))
    else some s
  | none => none

/-- `norm` on a string that is present (`some`). -/
def normStr (s : String) : String :=
  if s.data.all isPhoneChar then String.mk (lastN 10 (s.data.filter Char.isDigit)) else s

theorem norm_some (s : String) : norm (some s) = some (normStr s) := by
  rw [norm, normStr]
  split <;> rfl

/-! ### The intermediary data model (`Message` dataclass, attachment dicts) -/

/-- An attachment dict from `convert.py`: `content_type` is always a key
(possibly holding Python `None`); at most one of the `data_base64` / `text`
keys is expected to be present (`none` models an absent key). -/
structure Attachment where
  content_type : Option String
  data_base64 : Option String := none
  text : Option String := none
deriving DecidableEq, Repr

/-- The `Message` dataclass from `convert.py`. -/
structure Message where
  timestamp : Int
  timestamp_ns : Int
  sender : Option String
  recipients : List String
  body : Option String
  is_read : Bool
  attachments : List Attachment
deriving DecidableEq, Repr

/-! ### XML element trees

`Element` models `xml.etree.ElementTree.Element`: a tag, attributes, optional
text and a child list.  Attribute insertion order is kept but lookups are by
key, like the underlying dict. -/

inductive Element where
  | mk (tag : String) (attrs : List (String × String)) (text : Option String)
       (children : List Element)

def Element.tag : Element → String
  | .mk t _ _ _ => t

def Element.attrs : Element → List (String × String)
  | .mk _ a _ _ => a

def Element.text : Element → Option String
  | .mk _ _ tx _ => tx

def Element.children : Element → List Element
  | .mk _ _ _ cs => cs

/-- `Element.get(name)`: attribute lookup, `None` when absent. -/
def Element.get (e : Element) (name : String) : Option String :=
  List.lookup name e.attrs

/-- The children of `e` bearing tag `t` (one step of an ElementTree path). -/
def childrenTagged (e : Element) (t : String) : List Element :=
  e.children.filter (fun c => c.tag = t)

/-- `iterfind("a/b")`: all grandchildren reached by a two-tag path. -/
def iterPath2 (e : Element) (t₁ t₂ : String) : List Element :=
  (childrenTagged e t₁).flatMap (fun c => childrenTagged c t₂)

/-- `find(t)`: the first child with tag `t`, `None` when there is none. -/
def find1 (e : Element) (t : String) : Option Element :=
  (childrenTagged e t).head?

/-- Serializing an element tree with `ElementTree.write` and parsing the file
back (`ET.parse`): attributes, tags and structure survive verbatim, but an
element whose text is the empty string is written as `<tag/>` and parses back
with text `None`.  `wireNorm` is that write-then-parse round trip. -/
def collapseText : Option String → Option String
  | some s => if s = "" then none else some s
  | none => none

mutual
def wireNorm : Element → Element
  | .mk t a tx cs => .mk t a (collapseText tx) (wireNormL cs)
def wireNormL : List Element → List Element
  | [] => []
  | c :: cs => wireNorm c :: wireNormL cs
end

theorem wireNormL_eq_map (l : List Element) : wireNormL l = l.map wireNorm := by
  induction l with
  | nil => rfl
  | cons c cs ih => rw [wireNormL, ih, List.map_cons]

theorem wireNorm_mk (t : String) (a : List (String × String)) (tx : Option String)
    (cs : List Element) :
    wireNorm (.mk t a tx cs) = .mk t a (collapseText tx) (cs.map wireNorm) := by
  rw [wireNorm, wireNormL_eq_map]

theorem wireNorm_tag (e : Element) : (wireNorm e).tag = e.tag := by
  cases e; rfl

theorem wireNorm_attrs (e : Element) : (wireNorm e).attrs = e.attrs := by
  cases e; rfl

theorem wireNorm_get (e : Element) (name : String) :
    (wireNorm e).get name = e.get name := by
  rw [Element.get, Element.get, wireNorm_attrs]

theorem wireNorm_children (e : Element) :
    (wireNorm e).children = e.children.map wireNorm := by
  cases e
  rw [wireNorm]
  exact wireNormL_eq_map _

theorem childrenTagged_wireNorm (e : Element) (t : String) :
    childrenTagged (wireNorm e) t = (childrenTagged e t).map wireNorm := by
  rw [childrenTagged, childrenTagged, wireNorm_children, List.filter_map]
  exact congrArg _ (List.filter_congr (fun c _ => by simp [Function.comp, wireNorm_tag]))

theorem iterPath2_wireNorm (e : Element) (t₁ t₂ : String) :
    iterPath2 (wireNorm e) t₁ t₂ = (iterPath2 e t₁ t₂).map wireNorm := by
  rw [iterPath2, iterPath2, childrenTagged_wireNorm, List.flatMap_map, List.map_flatMap]
  congr 1
  funext c
  exact childrenTagged_wireNorm c t₂

theorem find1_wireNorm (e : Element) (t : String) :
    find1 (wireNorm e) t = (find1 e t).map wireNorm := by
  rw [find1, find1, childrenTagged_wireNorm, List.head?_map]

/-! ### Exception plumbing -/

/-- Lift a possibly-`None` Python value, raising `err` on `None`. -/
def orRaise (o : Option α) (err : String) : Except String α :=
  match o with
  | some a => .ok a
  | none => .error err

/-- Run an exception-raising function over a list, as a Python list
comprehension or `for` loop does: the first exception aborts everything. -/
def mapME (f : α → Except String β) : List α → Except String (List β)
  | [] => .ok []
  | a :: as =>
    match f a with
    | .error e => .error e
    | .ok b =>
      match mapME f as with
      | .error e => .error e
      | .ok bs => .ok (b :: bs)

theorem mapME_cons_ok (f : α → Except String β) (a : α) (as : List α) (b : β)
    (bs : List β) (ha : f a = .ok b) (has : mapME f as = .ok bs) :
    mapME f (a :: as) = .ok (b :: bs) := by
  rw [mapME, ha, has]

/-! ### UTF-16LE (`str.encode("utf_16_le")` / `bytes.decode("utf_16_le")`)

Bytes are `Nat`s below 256, 16-bit code units `Nat`s below 65536.  Characters
above the Basic Multilingual Plane become surrogate pairs; decoding rejects
odd-length input and lone surrogates, as Python does. -/

def charToUtf16Words (c : Char) : List Nat :=
  if c.toNat < 65536 then [c.toNat]
  else [55296 + (c.toNat - 65536) / 1024, 56320 + (c.toNat - 65536) % 1024]

def strToUtf16Words (s : String) : List Nat := s.data.flatMap charToUtf16Words

def wordsToBytes : List Nat → List Nat
  | [] => []
  | w :: ws => w % 256 :: w / 256 :: wordsToBytes ws

def bytesToWords : List Nat → Option (List Nat)
  | [] => some []
  | [_] => none
  | b0 :: b1 :: rest => (bytesToWords rest).map (fun ws => (b0 + 256 * b1) :: ws)

/-- `str.encode("utf_16_le")`. -/
def utf16leBytes (s : String) : List Nat := wordsToBytes (strToUtf16Words s)

def wordsToChars : List Nat → Option (List Char)
  | [] => some []
  | w :: ws =>
    if w < 55296 ∨ 57344 ≤ w then (wordsToChars ws).map (Char.ofNat w :: ·)
    else
      match ws with
      | w2 :: ws2 =>
        if w < 56320 ∧ 56320 ≤ w2 ∧ w2 < 57344 then
          (wordsToChars ws2).map (Char.ofNat (65536 + (w - 55296) * 1024 + (w2 - 56320)) :: ·)
        else none
      | [] => none

/-- `bytes.decode("utf_16_le")`, `none` on the inputs where Python raises
`UnicodeDecodeError`. -/
def utf16leDecode (bytes : List Nat) : Option String := do
  let ws ← bytesToWords bytes
  let cs ← wordsToChars ws
  return String.mk cs

/-- Unicode scalar value range of a `Char`, from its validity invariant. -/
theorem char_valid_ranges (c : Char) :
    c.toNat < 55296 ∨ (57344 ≤ c.toNat ∧ c.toNat < 1114112) := c.valid

theorem charToUtf16Words_lt (c : Char) : ∀ w ∈ charToUtf16Words c, w < 65536 := by
  intro w hw
  rw [charToUtf16Words] at hw
  split at hw
  · next h => simp only [List.mem_singleton] at hw; omega
  · next h =>
    have hv : c.toNat < 1114112 := by
      rcases char_valid_ranges c with h' | h' <;> omega
    simp only [List.mem_cons, List.mem_singleton, List.not_mem_nil, or_false] at hw
    have h1 : (c.toNat - 65536) / 1024 < 1024 := by omega
    have h2 : (c.toNat - 65536) % 1024 < 1024 := Nat.mod_lt _ (by norm_num)
    rcases hw with h3 | h3 <;> rw [h3] <;> omega

theorem bytesToWords_wordsToBytes (ws : List Nat) (h : ∀ w ∈ ws, w < 65536) :
    bytesToWords (wordsToBytes ws) = some ws := by
  induction ws with
  | nil => rfl
  | cons w ws ih =>
    have hw : w < 65536 := h w (by simp)
    rw [wordsToBytes, bytesToWords, ih (fun x hx => h x (by simp [hx]))]
    have : w % 256 + 256 * (w / 256) = w := by omega
    simp [this]

theorem wordsToChars_cons_bmp (w : Nat) (ws : List Nat) (h : w < 55296 ∨ 57344 ≤ w) :
    wordsToChars (w :: ws) = (wordsToChars ws).map (Char.ofNat w :: ·) := by
  rw [wordsToChars.eq_def]
  simp only [h, if_true]

theorem wordsToChars_cons_pair (w w2 : Nat) (ws2 : List Nat)
    (h : ¬(w < 55296 ∨ 57344 ≤ w)) (h2 : w < 56320 ∧ 56320 ≤ w2 ∧ w2 < 57344) :
    wordsToChars (w :: w2 :: ws2)
      = (wordsToChars ws2).map
          (Char.ofNat (65536 + (w - 55296) * 1024 + (w2 - 56320)) :: ·) := by
  rw [wordsToChars.eq_def]
  simp only [h, if_false, if_pos h2]

theorem wordsToChars_char (c : Char) (rest : List Nat) :
    wordsToChars (charToUtf16Words c ++ rest)
      = (wordsToChars rest).map (c :: ·) := by
  have hval : c.toNat < 55296 ∨ (57344 ≤ c.toNat ∧ c.toNat < 1114112) :=
    char_valid_ranges c
  rw [charToUtf16Words]
  split
  · next h =>
    rw [List.singleton_append, wordsToChars_cons_bmp _ _ (by omega), Char.ofNat_toNat]
  · next h =>
    have hlt : c.toNat < 1114112 := by
      rcases hval with h' | h' <;> omega
    have hv1 : (c.toNat - 65536) / 1024 < 1024 := by omega
    have hv2 : (c.toNat - 65536) % 1024 < 1024 := Nat.mod_lt _ (by norm_num)
    rw [List.cons_append, List.singleton_append,
      wordsToChars_cons_pair (55296 + (c.toNat - 65536) / 1024)
        (56320 + (c.toNat - 65536) % 1024) rest (by omega) ⟨by omega, by omega, by omega⟩]
    have hc : 65536 + (55296 + (c.toNat - 65536) / 1024 - 55296) * 1024
        + (56320 + (c.toNat - 65536) % 1024 - 56320) = c.toNat := by
      omega
    rw [hc, Char.ofNat_toNat]

theorem wordsToChars_strWords (s : String) :
    wordsToChars (strToUtf16Words s) = some s.data := by
  rw [strToUtf16Words]
  induction s.data with
  | nil => rfl
  | cons c cs ih =>
    rw [List.flatMap_cons, wordsToChars_char, ih]
    rfl

/-- UTF-16LE encode/decode round trip. -/
theorem utf16leDecode_utf16leBytes (s : String) :
    utf16leDecode (utf16leBytes s) = some s := by
  rw [utf16leDecode, utf16leBytes]
  have hlt : ∀ w ∈ strToUtf16Words s, w < 65536 := by
    intro w hw
    rw [strToUtf16Words, List.mem_flatMap] at hw
    obtain ⟨c, _, hc⟩ := hw
    exact charToUtf16Words_lt c w hc
  rw [bytesToWords_wordsToBytes _ hlt]
  show (wordsToChars (strToUtf16Words s)).bind _ = some s
  rw [wordsToChars_strWords]
  rfl

theorem wordsToBytes_lt (ws : List Nat) (h : ∀ w ∈ ws, w < 65536) :
    ∀ b ∈ wordsToBytes ws, b < 256 := by
  induction ws with
  | nil => intro b hb; simp [wordsToBytes] at hb
  | cons w ws ih =>
    intro b hb
    have hw : w < 65536 := h w (by simp)
    rw [wordsToBytes] at hb
    simp only [List.mem_cons] at hb
    rcases hb with rfl | rfl | hb
    · exact Nat.mod_lt _ (by norm_num)
    · omega
    · exact ih (fun x hx => h x (by simp [hx])) b hb

/-! ### Base64 (`base64.b64encode` / `base64.b64decode`)

`b64d` is the inverse of `b64e` on the well-formed strings `b64e` produces;
on other inputs it returns `none` where Python's decoder raises
`binascii.Error` (Python additionally discards non-alphabet characters before
checking padding, which never matters for the documents modelled here). -/

def b64Chars : List Char :=
  "ABCDEFGHIJKLMNOPQRSTUVWXYZabcdefghijklmnopqrstuvwxyz0123456789+/".data

def b64Char (n : Nat) : Char := b64Chars.getD n 'A'

def b64ValAux : List Char → Nat → Char → Option Nat
  | [], _, _ => none
  | c :: cs, i, x => if x = c then some i else b64ValAux cs (i + 1) x

def b64Val (c : Char) : Option Nat := b64ValAux b64Chars 0 c

theorem b64Val_b64Char {n : Nat} (h : n < 64) : b64Val (b64Char n) = some n := by
  have : ∀ m : Fin 64, b64Val (b64Char m.val) = some m.val := by decide
  exact this ⟨n, h⟩

theorem b64Char_ne_eq {n : Nat} (h : n < 64) : b64Char n ≠ '=' := by
  have : ∀ m : Fin 64, b64Char m.val ≠ '=' := by decide
  exact this ⟨n, h⟩

def b64e : List Nat → List Char
  | [] => []
  | [b0] => [b64Char (b0 / 4), b64Char (b0 % 4 * 16), '=', '=']
  | [b0, b1] => [b64Char (b0 / 4), b64Char (b0 % 4 * 16 + b1 / 16), b64Char (b1 % 16 * 4), '=']
  | b0 :: b1 :: b2 :: rest =>
    b64Char (b0 / 4) :: b64Char (b0 % 4 * 16 + b1 / 16)
      :: b64Char (b1 % 16 * 4 + b2 / 64) :: b64Char (b2 % 64) :: b64e rest

def b64d : List Char → Option (List Nat)
  | [] => some []
  | c0 :: c1 :: c2 :: c3 :: rest =>
    if rest = [] ∧ c3 = '=' then
      if c2 = '=' then do
        let v0 ← b64Val c0
        let v1 ← b64Val c1
        return [v0 * 4 + v1 / 16]
      else do
        let v0 ← b64Val c0
        let v1 ← b64Val c1
        let v2 ← b64Val c2
        return [v0 * 4 + v1 / 16, v1 % 16 * 16 + v2 / 4]
    else do
      let v0 ← b64Val c0
      let v1 ← b64Val c1
      let v2 ← b64Val c2
      let v3 ← b64Val c3
      let bs ← b64d rest
      return (v0 * 4 + v1 / 16) :: (v1 % 16 * 16 + v2 / 4) :: (v2 % 4 * 64 + v3) :: bs
  | _ => none

/-- Base64 encode/decode round trip on byte lists. -/
theorem b64d_b64e (bs : List Nat) (h : ∀ b ∈ bs, b < 256) : b64d (b64e bs) = some bs := by
  induction bs using b64e.induct with
  | case1 => rfl
  | case2 b0 =>
    have hb0 : b0 < 256 := h b0 (by simp)
    rw [b64e, b64d, if_pos ⟨rfl, rfl⟩, if_pos rfl,
      b64Val_b64Char (by omega), b64Val_b64Char (by omega)]
    show some [b0 / 4 * 4 + b0 % 4 * 16 / 16] = some [b0]
    have e0 : b0 / 4 * 4 + b0 % 4 * 16 / 16 = b0 := by omega
    rw [e0]
  | case3 b0 b1 =>
    have hb0 : b0 < 256 := h b0 (by simp)
    have hb1 : b1 < 256 := h b1 (by simp)
    rw [b64e, b64d, if_pos ⟨rfl, rfl⟩,
      if_neg (b64Char_ne_eq (by omega)),
      b64Val_b64Char (by omega), b64Val_b64Char (by omega), b64Val_b64Char (by omega)]
    show some [b0 / 4 * 4 + (b0 % 4 * 16 + b1 / 16) / 16,
      (b0 % 4 * 16 + b1 / 16) % 16 * 16 + b1 % 16 * 4 / 4] = some [b0, b1]
    have e0 : b0 / 4 * 4 + (b0 % 4 * 16 + b1 / 16) / 16 = b0 := by omega
    have e1 : (b0 % 4 * 16 + b1 / 16) % 16 * 16 + b1 % 16 * 4 / 4 = b1 := by omega
    rw [e0, e1]
  | case4 b0 b1 b2 rest ih =>
    have hb0 : b0 < 256 := h b0 (by simp)
    have hb1 : b1 < 256 := h b1 (by simp)
    have hb2 : b2 < 256 := h b2 (by simp)
    rw [b64e, b64d]
    rw [if_neg (by rintro ⟨-, hc⟩; exact b64Char_ne_eq (show b2 % 64 < 64 by omega) hc)]
    rw [b64Val_b64Char (by omega), b64Val_b64Char (by omega), b64Val_b64Char (by omega),
      b64Val_b64Char (by omega), ih (fun x hx => h x (by simp [hx]))]
    show some ((b0 / 4 * 4 + (b0 % 4 * 16 + b1 / 16) / 16)
        :: ((b0 % 4 * 16 + b1 / 16) % 16 * 16 + (b1 % 16 * 4 + b2 / 64) / 4)
        :: ((b1 % 16 * 4 + b2 / 64) % 4 * 64 + b2 % 64) :: rest)
      = some (b0 :: b1 :: b2 :: rest)
    have e0 : b0 / 4 * 4 + (b0 % 4 * 16 + b1 / 16) / 16 = b0 := by omega
    have e1 : (b0 % 4 * 16 + b1 / 16) % 16 * 16 + (b1 % 16 * 4 + b2 / 64) / 4 = b1 := by omega
    have e2 : (b1 % 16 * 4 + b2 / 64) % 4 * 64 + b2 % 64 = b2 := by omega
    rw [e0, e1, e2]

/-- The two-step text encoding used by the Windows 10 writer:
`base64.b64encode(text.encode("utf_16_le")).decode()`. -/
def encode_text (t : String) : String := String.mk (b64e (utf16leBytes t))

/-- The matching decode used by the Windows 10 reader for textual content
types: `base64.b64decode(data).decode("utf_16_le")`. -/
def decode_text (s : String) : Except String String :=
  match b64d s.data with
  | none => .error "binascii.Error: invalid base64-encoded string"
  | some bytes =>
    match utf16leDecode bytes with
    | none => .error "UnicodeDecodeError: utf-16-le codec cannot decode"
    | some t => .ok t

theorem strToUtf16Words_lt (t : String) : ∀ w ∈ strToUtf16Words t, w < 65536 := by
  intro x hx
  rw [strToUtf16Words, List.mem_flatMap] at hx
  obtain ⟨c, _, hc⟩ := hx
  exact charToUtf16Words_lt c x hc

theorem utf16leBytes_lt (t : String) : ∀ b ∈ utf16leBytes t, b < 256 :=
  wordsToBytes_lt _ (strToUtf16Words_lt t)

theorem decode_text_encode_text (t : String) : decode_text (encode_text t) = .ok t := by
  have h1 : b64d (encode_text t).data = some (utf16leBytes t) :=
    b64d_b64e _ (utf16leBytes_lt t)
  rw [decode_text, h1]
  simp [utf16leDecode_utf16leBytes]

theorem b64e_ne_nil (bs : List Nat) (h : bs ≠ []) : b64e bs ≠ [] := by
  match bs with
  | [] => exact absurd rfl h
  | [b0] => simp [b64e]
  | [b0, b1] => simp [b64e]
  | b0 :: b1 :: b2 :: rest => simp [b64e]

theorem charToUtf16Words_ne_nil (c : Char) : charToUtf16Words c ≠ [] := by
  rw [charToUtf16Words]
  split <;> simp

theorem utf16leBytes_ne_nil (t : String) (h : t ≠ "") : utf16leBytes t ≠ [] := by
  rw [utf16leBytes, strToUtf16Words]
  rcases hd : t.data with _ | ⟨c, cs⟩
  · exact absurd (by rw [← show String.mk t.data = t from rfl, hd]) h
  · rw [List.flatMap_cons]
    rcases hw : charToUtf16Words c with _ | ⟨w, ws⟩
    · exact absurd hw (charToUtf16Words_ne_nil c)
    · rw [List.cons_append, wordsToBytes]
      simp

theorem encode_text_ne_empty (t : String) (h : t ≠ "") : encode_text t ≠ "" := by
  rw [encode_text]
  intro hcon
  exact b64e_ne_nil _ (utf16leBytes_ne_nil t h) (congrArg String.data hcon)

/-! ### Sorting (`sorted` on a list of strings)

Insertion sort; extensionally the same function as Python `sorted` on strings
(both produce the unique ascending reordering — equal strings are identical,
so stability cannot be observed). -/

def insertSorted (a : String) : List String → List String
  | [] => [a]
  | b :: bs => if a ≤ b then a :: b :: bs else b :: insertSorted a bs

def pySorted : List String → List String
  | [] => []
  | a :: as => insertSorted a (pySorted as)

theorem mem_insertSorted (x a : String) (l : List String) :
    x ∈ insertSorted a l ↔ x = a ∨ x ∈ l := by
  induction l with
  | nil => simp [insertSorted]
  | cons b bs ih =>
    rw [insertSorted]
    split
    · simp
    · simp only [List.mem_cons, ih]
      tauto

theorem mem_pySorted (x : String) (l : List String) : x ∈ pySorted l ↔ x ∈ l := by
  induction l with
  | nil => simp [pySorted]
  | cons a as ih => rw [pySorted, mem_insertSorted, ih, List.mem_cons]

/-! ### The `Android` platform (`Android.read` / `Android.write`) -/

namespace Android

def RECEIVED : String := "1"
def SENT : String := "2"
def TO : String := "151"
def FROM : String := "137"
def UTF_8 : String := "106"

/-- Python `s.split("~")`. -/
def splitTilde (s : String) : List String :=
  (splitChar '~' s.data).map String.mk

/-- Python `"~".join(parts)`. -/
def joinTilde (parts : List String) : String :=
  String.mk (joinChar '~' (parts.map String.data))

/-- The loop body of `get_attachments` inside `Android.read`: one `part`
element to one attachment dict. -/
def readPart (part : Element) : Attachment :=
  match part.get "data" with
  | some d => { content_type := part.get "ct", data_base64 := some d }
  | none => { content_type := part.get "ct", text := part.get "text" }

/-- `get_attachments` inside `Android.read`: one attachment dict per
`parts/part` child. -/
def get_attachments (mms : Element) : List Attachment :=
  (iterPath2 mms "parts" "part").map readPart

/-- `from_sms` inside `Android.read`. -/
def from_sms (sms : Element) : Except String Message := do
  let dateStr ← orRaise (sms.get "date") "TypeError: int() argument must not be None"
  let date ← orRaise (strToInt dateStr) "ValueError: invalid literal for int()"
  .ok {
    timestamp := pyDiv date 1000
    timestamp_ns := pyMod date 1000 * 10 ^ 6
    sender := if sms.get "type" = some RECEIVED then sms.get "address" else none
    -- `[sms.get("address")] if ... else []`; a missing attribute would put a
    -- Python `None` inside this `list[str]`, which `Option.toList` flattens
    -- away instead — no document in scope lacks the attribute
    recipients := if sms.get "type" = some SENT then (sms.get "address").toList else []
    body := sms.get "body"
    is_read := sms.get "read" == some "1"
    attachments := [] }

/-- The `addrs/addr` children carrying a given role code
(`mms.iterfind("addrs/addr[@type='...']")`). -/
def addrsWithRole (mms : Element) (role : String) : List Element :=
  (iterPath2 mms "addrs" "addr").filter (fun a => a.get "type" == some role)

/-- `from_mms` inside `Android.read` (explicit binds, matching the
source statement order). -/
def from_mms (mms : Element) : Except String Message :=
  orRaise (mms.get "address") "AttributeError: NoneType has no attribute split"
    >>= fun addressAttr =>
  -- `con = {norm(addr) for addr in mms.get("address").split("~")}`; a list
  -- models the set, only membership is used.  `norm` of a present string is
  -- `normStr`.
  let con : List String := (splitTilde addressAttr).map normStr
  orRaise (mms.get "date") "TypeError: int() argument must not be None"
    >>= fun dateStr =>
  orRaise (strToInt dateStr) "ValueError: invalid literal for int()"
    >>= fun date =>
  (if mms.get "msg_box" = some RECEIVED then
    orRaise (addrsWithRole mms FROM).head?
        "AttributeError: NoneType has no attribute get"
      >>= fun fromAddr => .ok (fromAddr.get "address")
  else .ok none)
    >>= fun sender =>
  .ok {
    timestamp := pyDiv date 1000
    timestamp_ns := pyMod date 1000 * 10 ^ 6
    sender := sender
    -- keep each to-role addr whose normalized address is in `con`; a `None`
    -- address never is (norm(None) = None and con holds strings only)
    recipients := ((addrsWithRole mms TO).filter
        (fun a =>
          match a.get "address" with
          | some ad => con.contains (normStr ad)
          | none => false)).filterMap (fun a => a.get "address")
    body := none
    is_read := mms.get "read" == some "1"
    attachments := get_attachments mms }

/-- `Android.read`: every child of the root, `sms`-tagged ones via `from_sms`,
all others via `from_mms`. -/
def read (doc : Element) : Except String (List Message) :=
  mapME (fun msg => if msg.tag = "sms" then from_sms msg else from_mms msg) doc.children

/-- The `addr` helper inside `Android.write`. -/
def addr (addr_type : String) (address : String) : Element :=
  .mk "addr" [("charset", UTF_8), ("address", address), ("type", addr_type)] none []

/-- One `part` element per attachment (the loop body in `Android.write`).
A `content_type` holding Python `None` would make the final
`ElementTree.write` raise; the model raises here. -/
def writePart (a : Attachment) : Except String Element := do
  let ct ← orRaise a.content_type "TypeError: cannot serialize None"
  match a.text with
  | some t => .ok (.mk "part" [("chset", UTF_8), ("ct", ct), ("text", t)] none [])
  | none => do
    let d ← orRaise a.data_base64 "KeyError: data_base64"
    .ok (.mk "part" [("chset", UTF_8), ("ct", ct), ("data", d)] none [])

/-- `message.sender or message.recipients[0]`: the falsy-sender dispatch of
the sms branch of `Android.write`, `IndexError` included. -/
def senderOrFirstRecipient (sender : Option String) (recipients : List String) :
    Except String String :=
  match sender with
  | some s =>
    if s = "" then orRaise recipients.head? "IndexError: list index out of range"
    else .ok s
  | none => orRaise recipients.head? "IndexError: list index out of range"

/-- The per-message loop body of `Android.write`: one `sms` or `mms` element. -/
def writeMessage (you : String) (m : Message) : Except String Element :=
  let timestamp_ms := m.timestamp * 1000 + pyDiv m.timestamp_ns 1000000
  match m.attachments with
  | [] =>
    senderOrFirstRecipient m.sender m.recipients >>= fun address =>
    .ok (.mk "sms"
      [("date", intToStr timestamp_ms), ("address", address),
       ("type", if m.sender.isSome then RECEIVED else SENT),
       ("body", m.body.getD ""), ("read", if m.is_read then "1" else "0")]
      none [])
  | _ :: _ =>
    mapME writePart m.attachments >>= fun parts =>
    .ok (.mk "mms"
      [("m_type", if m.sender.isSome then "132" else "128"),
       ("msg_box", if m.sender.isSome then RECEIVED else SENT),
       ("date", intToStr timestamp_ms),
       ("address", joinTilde (pySorted (m.recipients ++ m.sender.toList))),
       ("read", if m.is_read then "1" else "0")]
      none
      [.mk "parts" [] none parts,
       .mk "addrs" [] none
         ((match m.sender with
           | some s => [addr FROM s, addr TO you]
           | none => [addr FROM you]) ++ m.recipients.map (addr TO))])

/-- `Android.write`: fail on a missing `you` keyword, then one child per
message, then the recomputed `count` attribute on the root. -/
def write (messages : List Message) (you? : Option String) : Except String Element := do
  let you ← orRaise you? "TypeError: missing required keyword argument you"
  let children ← mapME (writeMessage you) messages
  .ok (.mk "smses" [("count", intToStr (children.length : Int))] none children)

end Android

/-! ### The `Windows10` platform (`Windows10.read` / `Windows10.write`) -/

namespace Windows10

/-- The format-B timestamp encode:
`(timestamp + 11644473600) * 10**7 + timestamp_ns // 100`. -/
def encode_B_time (timestamp timestamp_ns : Int) : Int :=
  (timestamp + 11644473600) * 10 ^ 7 + pyDiv timestamp_ns 100

/-- The format-B timestamp decode:
`(ticks // 10**7 - 11644473600, ticks % 10**7 * 100)`. -/
def decode_B_time (ticks : Int) : Int × Int :=
  (pyDiv ticks (10 ^ 7) - 11644473600, pyMod ticks (10 ^ 7) * 100)

/-- The loop body of `get_attachments` inside `Windows10.read`: one
`MessageAttachment` element to one attachment dict. -/
def readAttachment (att : Element) : Except String Attachment := do
  let ctElem ← orRaise (find1 att "AttachmentContentType")
    "AttributeError: NoneType has no attribute text"
  let dataElem ← orRaise (find1 att "AttachmentDataBase64String")
    "AttributeError: NoneType has no attribute text"
  let content_type := ctElem.text
  if content_type = some "text/plain" ∨ content_type = some "application/smil" then do
    let dataB ← orRaise dataElem.text "TypeError: b64decode argument must not be None"
    let t ← decode_text dataB
    .ok { content_type := content_type, text := some t }
  else
    .ok { content_type := content_type, data_base64 := dataElem.text }

/-- `get_attachments` inside `Windows10.read`. -/
def get_attachments (msg : Element) : Except String (List Attachment) :=
  mapME readAttachment (iterPath2 msg "Attachments" "MessageAttachment")

/-- The per-`Message`-element body of the comprehension in `Windows10.read`. -/
def readMessage (msg : Element) : Except String Message := do
  let ltElem ← orRaise (find1 msg "LocalTimestamp")
    "AttributeError: NoneType has no attribute text"
  let ltText ← orRaise ltElem.text "TypeError: int() argument must not be None"
  let ticks ← orRaise (strToInt ltText) "ValueError: invalid literal for int()"
  let senderElem ← orRaise (find1 msg "Sender")
    "AttributeError: NoneType has no attribute text"
  let bodyElem ← orRaise (find1 msg "Body")
    "AttributeError: NoneType has no attribute text"
  let isReadElem ← orRaise (find1 msg "IsRead")
    "AttributeError: NoneType has no attribute text"
  let atts ← get_attachments msg
  .ok {
    timestamp := (decode_B_time ticks).1
    timestamp_ns := (decode_B_time ticks).2
    sender := senderElem.text
    -- `[x.text for x in msg.iterfind("Recepients/string")]`; a text-less
    -- `string` child would put a Python `None` inside this `list[str]`,
    -- which `filterMap` drops instead — never the case in scope
    recipients := (iterPath2 msg "Recepients" "string").filterMap Element.text
    body := bodyElem.text
    is_read := isReadElem.text == some "true"
    attachments := atts }

/-- `Windows10.read`: one `Message` record per `Message` child of the root. -/
def read (doc : Element) : Except String (List Message) :=
  mapME readMessage (childrenTagged doc "Message")

/-- The `elem` helper inside `Windows10.write`. -/
def elem (tag : String) (text : Option String := none) : Element :=
  .mk tag [] text []

/-- One `MessageAttachment` element per attachment. -/
def writeAttachment (a : Attachment) : Except String Element := do
  let dataB ←
    match a.data_base64 with
    | some d => .ok d
    | none =>
      match a.text with
      | some t => .ok (encode_text t)
      | none => .error "KeyError: text"
  .ok (.mk "MessageAttachment" [] none
    [elem "AttachmentContentType" a.content_type,
     elem "AttachmentDataBase64String" (some dataB)])

/-- The per-message loop body of `Windows10.write`: one `Message` element with
children in the fixed order the source emits. -/
def writeMessage (m : Message) : Except String Element := do
  let atts ← mapME writeAttachment m.attachments
  .ok (.mk "Message" [] none
    [.mk "Recepients" [] none (m.recipients.map (fun r => elem "string" (some r))),
     elem "Body" (some (m.body.getD "")),
     elem "IsIncoming" (some (if m.sender.isSome then "true" else "false")),
     elem "IsRead" (some (if m.is_read then "true" else "false")),
     .mk "Attachments" [] none atts,
     elem "LocalTimestamp" (some (intToStr (encode_B_time m.timestamp m.timestamp_ns))),
     elem "Sender" (some (m.sender.getD ""))])

/-- `Windows10.write`. -/
def write (messages : List Message) : Except String Element := do
  let children ← mapME writeMessage messages
  .ok (.mk "ArrayOfMessage" [] none children)

end Windows10

/-! ### Round-trip pipelines

Encoding writes the document to a file and decoding parses one, so the
write-then-parse normalization `wireNorm` sits between the two. -/

/-- Encode to format A (with owner phone `you`), serialize, parse, decode. -/
def roundtripA (you : String) (M : List Message) : Except String (List Message) := do
  let doc ← Android.write M (some you)
  Android.read (wireNorm doc)

/-- Encode to format B, serialize, parse, decode. -/
def roundtripB (M : List Message) : Except String (List Message) := do
  let doc ← Windows10.write M
  Windows10.read (wireNorm doc)

/-- Truncation of `timestamp_ns` to whole milliseconds — the precision format
A retains. -/
def truncMs (m : Message) : Message :=
  { m with timestamp_ns := pyDiv m.timestamp_ns 1000000 * 1000000 }

/-! ### Generic lemmas: `Except` binds, `norm` -/

@[simp] theorem ok_bind (a : α) (f : α → Except String β) :
    (Except.ok a >>= f) = f a := rfl

@[simp] theorem error_bind (e : String) (f : α → Except String β) :
    ((Except.error e : Except String α) >>= f) = .error e := rfl

@[simp] theorem orRaise_some (a : α) (err : String) : orRaise (some a) err = .ok a := rfl

@[simp] theorem orRaise_none (err : String) :
    (orRaise none err : Except String α) = .error err := rfl

theorem bind_eq_ok {x : Except String α} {f : α → Except String β} {b : β}
    (h : (x >>= f) = .ok b) : ∃ a, x = .ok a ∧ f a = .ok b := by
  cases x with
  | error e => rw [error_bind] at h; exact absurd h (by simp)
  | ok a => exact ⟨a, rfl, by rwa [ok_bind] at h⟩

theorem normStr_all_phone {s : String} (hm : s.data.all isPhoneChar = true) :
    normStr s = String.mk (lastN 10 (s.data.filter Char.isDigit)) := by
  rw [normStr, if_pos hm]

theorem normStr_not_phone {s : String} (hm : ¬ s.data.all isPhoneChar = true) :
    normStr s = s := by
  rw [normStr, if_neg hm]

theorem isPhoneChar_of_digit {c : Char} (h : c.isDigit = true) : isPhoneChar c = true := by
  rw [isPhoneChar, h]
  rfl

/-- `normStr` fixes short all-digit strings. -/
theorem normStr_digits (l : List Char) (hdig : ∀ c ∈ l, c.isDigit = true)
    (hlen : l.length ≤ 10) : normStr (String.mk l) = String.mk l := by
  have hm : (String.mk l).data.all isPhoneChar = true :=
    List.all_eq_true.mpr (fun c hc => isPhoneChar_of_digit (hdig c hc))
  rw [normStr_all_phone hm]
  have hfilter : l.filter Char.isDigit = l := List.filter_eq_self.mpr hdig
  have hlast : lastN 10 l = l := by
    rw [lastN]
    have : l.length - 10 = 0 := by omega
    rw [this, List.drop_zero]
  show String.mk (lastN 10 (l.filter Char.isDigit)) = String.mk l
  rw [hfilter, hlast]

theorem lastN_length_le (n : Nat) (l : List Char) : (lastN n l).length ≤ n := by
  rw [lastN, List.length_drop]
  omega

theorem lastN_subset (n : Nat) (l : List Char) : ∀ c ∈ lastN n l, c ∈ l := by
  intro c hc
  exact List.mem_of_mem_drop hc

/-! ### Claims: the address normalizer (C6, C7) -/

/-- The character class of §4.1 as the specification words it: parentheses,
space, plus, hyphen, digits only. -/
def specPhoneChar (c : Char) : Bool :=
  c.isDigit || c = '(' || c = ')' || c = ' ' || c = '+' || c = '-'

/-- The normalizer as §4.1 of the specification describes it, for comparison
with `norm` from the source: `null` passes through; a string made of the
phone class is reduced to the last 10 characters (reverse-take-reverse) of
its digit-only residue; anything else passes through unchanged. -/
def normSpec (address : Option String) : Option String :=
  match address with
  | none => none
  | some s =>
    if s.data.all specPhoneChar then
      some (((s.data.filter Char.isDigit).reverse.take 10).reverse.asString)
    else some s

theorem isPhoneChar_eq_spec : isPhoneChar = specPhoneChar := by
  funext c
  rw [isPhoneChar, specPhoneChar]
  by_cases h4 : c = '-' <;> by_cases h5 : c = '+' <;> simp [h4, h5]

theorem lastN_eq_reverse_take (n : Nat) (l : List Char) :
    lastN n l = (l.reverse.take n).reverse := by
  show List.rtake l n = (l.reverse.take n).reverse
  exact List.rtake_eq_reverse_take_reverse l n

/-- C6: `normalize(address)` is `null` on `null`; on a string whose characters
all lie in the class `[0-9() +-]` it is the last 10 characters of the string
with its non-digits deleted; on any other string it is the identity.  Stated
as agreement with `normSpec`, the literal transcription of the spec text. -/
theorem norm_eq_normSpec (a : Option String) : norm a = normSpec a := by
  cases a with
  | none => rfl
  | some s =>
    rw [norm_some, normSpec, normStr, isPhoneChar_eq_spec]
    split
    · rw [lastN_eq_reverse_take]
      rfl
    · rfl

/-- C7: the address normalizer is idempotent on every string. -/
theorem norm_idempotent (x : String) : norm (norm (some x)) = norm (some x) := by
  rw [norm_some, norm_some]
  by_cases hm : x.data.all isPhoneChar = true
  · rw [normStr_all_phone hm]
    have hdig : ∀ c ∈ lastN 10 (x.data.filter Char.isDigit), c.isDigit = true := by
      intro c hc
      exact (List.mem_filter.mp (lastN_subset _ _ c hc)).2
    rw [normStr_digits _ hdig (lastN_length_le 10 _)]
  · rw [normStr_not_phone hm, normStr_not_phone hm]

/-! ### Claims: the format-B timestamp codec (C3) -/

/-- C3 counterexample: at `(s, ns) = (0, 50)` the decode of the encode is
`(0, 0)`, not `(0, 50)` — sub-100ns precision is destroyed by
`timestamp_ns // 100`, so the claimed exact round trip for all
`0 ≤ ns < 10^9` is false. -/
theorem decode_encode_B_time_not_exact :
    Windows10.decode_B_time (Windows10.encode_B_time 0 50) = ((0 : Int), (0 : Int))
      ∧ ((0 : Int), (50 : Int)) ≠ ((0 : Int), (0 : Int)) := by decide

/-- The tick round trip returns the seconds exactly and the nanoseconds
truncated to a multiple of 100. -/
theorem decode_B_time_encode_B_time (s ns : Int) (h0 : 0 ≤ ns) (h1 : ns < 1000000000) :
    Windows10.decode_B_time (Windows10.encode_B_time s ns)
      = (s, pyDiv ns 100 * 100) := by
  rw [Windows10.encode_B_time, Windows10.decode_B_time]
  rw [pyDiv_eq_ediv _ (by norm_num), pyDiv_eq_ediv _ (by norm_num),
    pyMod_eq_emod _ (by norm_num)]
  have hp : (10 : Int) ^ 7 = 10000000 := by norm_num
  rw [hp]
  rw [Prod.mk.injEq]
  constructor
  · omega
  · omega

/-- C3 amended: for all integers `s` and `0 ≤ ns < 10^9`, decoding the encoded
tick value returns `s` exactly and `ns` truncated to a whole multiple of 100
nanoseconds (hence `(s, ns)` itself precisely when `100 ∣ ns`). -/
theorem decode_encode_B_time (s ns : Int) (h0 : 0 ≤ ns) (h1 : ns < 1000000000) :
    Windows10.decode_B_time (Windows10.encode_B_time s ns)
      = (s, pyDiv ns 100 * 100) :=
  decode_B_time_encode_B_time s ns h0 h1

/-- C3 witness: a concrete instance of the amended round trip. -/
theorem decode_encode_B_time_witness :
    Windows10.decode_B_time (Windows10.encode_B_time 5 12345) = ((5 : Int), (12300 : Int)) := by
  rw [decode_encode_B_time 5 12345 (by norm_num) (by norm_num)]
  decide

/-! ### Claims: encoder configuration and count attribute (C8, C5) -/

/-- C8: encoding to format A without the owner phone number fails at once with
the configuration error, whatever the message list — no per-message work
(which could itself fail differently) happens first. -/
theorem encode_A_missing_you (messages : List Message) :
    Android.write messages none
      = .error "TypeError: missing required keyword argument you" := rfl

/-- C5: whenever encoding to format A succeeds, the root is `smses` and its
`count` attribute is exactly the decimal rendering of the number of children
actually emitted. -/
theorem encode_A_count (messages : List Message) (you : String) (e : Element)
    (h : Android.write messages (some you) = .ok e) :
    e.tag = "smses" ∧ e.get "count" = some (intToStr (e.children.length : Int)) := by
  rw [Android.write, orRaise_some, ok_bind] at h
  obtain ⟨children, hok, hmk⟩ := bind_eq_ok h
  have he : e = .mk "smses" [("count", intToStr (children.length : Int))] none children := by
    cases hmk
    rfl
  subst he
  exact ⟨rfl, rfl⟩

/-- C5 witness input: two plain SMS messages. -/
def c5msgs : List Message :=
  [⟨3, 0, some "12", [], some "a", true, []⟩, ⟨4, 0, none, ["34"], some "b", false, []⟩]

/-- C5 witness output document. -/
def c5doc : Element :=
  .mk "smses" [("count", "2")] none
    [.mk "sms" [("date", "3000"), ("address", "12"), ("type", "1"), ("body", "a"),
       ("read", "1")] none [],
     .mk "sms" [("date", "4000"), ("address", "34"), ("type", "2"), ("body", "b"),
       ("read", "0")] none []]

/-- C5 witness: the count attribute on a concrete two-message encode. -/
theorem encode_A_count_witness :
    c5doc.tag = "smses" ∧ c5doc.get "count" = some (intToStr (c5doc.children.length : Int)) :=
  encode_A_count c5msgs "99" c5doc (by rfl)

/-! ### Claims: the empty-string-sender SMS encode (C10) -/

/-- C10: encoding an attachment-free message whose sender is the empty string
`""` (not null) and whose recipients are non-empty emits an `sms` element with
`type` the received code `"1"` (the sender is not `None`) but `address` the
first recipient (the empty-string sender is falsy in `sender or
recipients[0]`): an incoming-marked message whose address names a recipient. -/
theorem empty_sender_sms_inconsistent (you : String) (m : Message) (r : String)
    (rs : List String) (hatt : m.attachments = []) (hs : m.sender = some "")
    (hr : m.recipients = r :: rs) :
    Android.writeMessage you m = .ok (.mk "sms"
      [("date", intToStr (m.timestamp * 1000 + pyDiv m.timestamp_ns 1000000)),
       ("address", r), ("type", Android.RECEIVED),
       ("body", m.body.getD ""), ("read", if m.is_read then "1" else "0")] none []) := by
  simp only [Android.writeMessage, hatt, hs, hr]
  rfl

/-- C10 witness input. -/
def c10msg : Message := ⟨0, 0, some "", ["555"], some "hi", true, []⟩

/-- C10 witness: the inconsistent element on a concrete message. -/
theorem empty_sender_sms_inconsistent_witness :
    Android.writeMessage "99" c10msg = .ok (.mk "sms"
      [("date", intToStr (c10msg.timestamp * 1000 + pyDiv c10msg.timestamp_ns 1000000)),
       ("address", "555"), ("type", Android.RECEIVED),
       ("body", c10msg.body.getD ""), ("read", if c10msg.is_read then "1" else "0")]
      none []) :=
  empty_sender_sms_inconsistent "99" c10msg "555" [] rfl rfl rfl

/-! ### Claims: unrecognized MMS address roles (C9) -/

/-- A received group MMS whose `addrs` carry one `addr` with the unknown role
code `"999"` besides the known from/to roles. -/
def c9doc : Element :=
  .mk "smses" [("count", "1")] none
    [.mk "mms" [("date", "0"), ("address", "111~222"), ("msg_box", "1"), ("read", "1")]
      none
      [.mk "addrs" [] none
        [Android.addr Android.FROM "222", Android.addr Android.TO "111",
         Android.addr "999" "333"]]]

/-- The same document with the unknown-role `addr` removed. -/
def c9docPruned : Element :=
  .mk "smses" [("count", "1")] none
    [.mk "mms" [("date", "0"), ("address", "111~222"), ("msg_box", "1"), ("read", "1")]
      none
      [.mk "addrs" [] none
        [Android.addr Android.FROM "222", Android.addr Android.TO "111"]]]

/-- C9 counterexample: decoding a document containing an `addr` whose role is
neither the to-code nor the from-code succeeds — no decode error is raised,
contradicting the claimed fatal "unrecognized address role" failure. -/
theorem unknown_role_decodes_ok :
    Android.read c9doc = .ok [⟨0, 0, some "222", ["111"], none, true, []⟩] := by decide

/-- C9 amended: an `addr` element with an unrecognized role code is silently
ignored — decoding succeeds and returns exactly what it returns with that
element absent; the stray address appears neither as sender nor recipient. -/
theorem unknown_role_silently_dropped :
    Android.read c9doc = Android.read c9docPruned := by decide

/-! ### Claims: the MMS participant filter (C4) -/

/-- The scenario of the claim, literally: roster attribute `A~B~C` with
`A,B,C = 111,222,333`, owner (normalized) `B = 222`, `msg_box` received,
addr children from-`B`, to-`A`, to-`B`, to-`C`. -/
def c4doc : Element :=
  .mk "smses" [("count", "1")] none
    [.mk "mms" [("date", "0"), ("address", "111~222~333"), ("msg_box", "1"), ("read", "1")]
      none
      [.mk "addrs" [] none
        [Android.addr Android.FROM "222", Android.addr Android.TO "111",
         Android.addr Android.TO "222", Android.addr Android.TO "333"]]]

/-- The scenario with the owner's address absent from the roster attribute
(`address="A~C"`), as Android backups and this encoder actually produce. -/
def c4docOwnerExcluded : Element :=
  .mk "smses" [("count", "1")] none
    [.mk "mms" [("date", "0"), ("address", "111~333"), ("msg_box", "1"), ("read", "1")]
      none
      [.mk "addrs" [] none
        [Android.addr Android.FROM "222", Android.addr Android.TO "111",
         Android.addr Android.TO "222", Android.addr Android.TO "333"]]]

/-- C4 counterexample: with the owner's address `222` present in the roster
attribute (`address="111~222~333"`, as the claim posits), the decoded
recipients are `[111, 222, 333]` — the owner's own address `222` IS kept,
because the `con` filter is built from the roster attribute itself; the
claimed `recipients == [111, 333]` is false. -/
theorem owner_in_roster_is_kept :
    Android.read c4doc = .ok [⟨0, 0, some "222", ["111", "222", "333"], none, true, []⟩]
      ∧ (["111", "222", "333"] : List String) ≠ ["111", "333"] := by decide

/-- C4 amended: the owner is filtered from the recipients only because real
format-A rosters exclude the owner: with `address="111~333"` and the same
addr children, the decode yields sender `222` and recipients `[111, 333]`,
without the owner address `222`. -/
theorem owner_excluded_roster_filters :
    Android.read c4docOwnerExcluded
      = .ok [⟨0, 0, some "222", ["111", "333"], none, true, []⟩] := by decide

/-! ### Round trip through format B (C2) -/

theorem collapseText_of_ne_empty {o : Option String} (h : o ≠ some "") :
    collapseText o = o := by
  cases o with
  | none => rfl
  | some s =>
    have hs : s ≠ "" := by simpa using h
    rw [collapseText, if_neg hs]

theorem collapseText_getD {o : Option String} (h : o ≠ some "") :
    collapseText (some (o.getD "")) = o := by
  cases o with
  | none => rfl
  | some s =>
    have hs : s ≠ "" := by simpa using h
    show collapseText (some s) = some s
    exact collapseText_of_ne_empty (by simpa using hs)

theorem intToStr_ne_empty (i : Int) : intToStr i ≠ "" := by
  cases i with
  | ofNat n =>
    show String.mk (natToStrChars n) ≠ ""
    intro hcon
    exact natToStrAux_ne_nil (n + 1) n (by omega) (congrArg String.data hcon)
  | negSucc m =>
    show String.mk ('-' :: natToStrChars (m + 1)) ≠ ""
    intro hcon
    exact absurd (congrArg String.data hcon) (by simp)

/-- Attachment well-formedness for the exact format-B round trip: no
empty-string payloads or content types (the XML layer would turn them into
`None`), exactly one payload field, and the payload field agreeing with what
the content type makes the decoder reconstruct. -/
def AttSafe (a : Attachment) : Prop :=
  a.content_type ≠ some "" ∧ a.data_base64 ≠ some "" ∧ a.text ≠ some "" ∧
  (a.data_base64 = none ↔ a.text ≠ none) ∧
  (a.text ≠ none
    ↔ (a.content_type = some "text/plain" ∨ a.content_type = some "application/smil"))

/-- The per-message well-formedness under which the format-B round trip is
exact: sub-100ns precision absent, no empty-string texts that the XML layer
would collapse to `None`, and well-formed attachments. -/
def RoundSafeB (m : Message) : Prop :=
  0 ≤ m.timestamp_ns ∧ m.timestamp_ns < 1000000000 ∧ m.timestamp_ns % 100 = 0 ∧
  m.sender ≠ some "" ∧ m.body ≠ some "" ∧ (∀ r ∈ m.recipients, r ≠ "") ∧
  ∀ a ∈ m.attachments, AttSafe a

instance (a : Attachment) : Decidable (AttSafe a) := by
  unfold AttSafe
  infer_instance

instance (m : Message) : Decidable (RoundSafeB m) := by
  unfold RoundSafeB
  infer_instance

/-- Evaluation of `readAttachment` on the element shape the encoder emits. -/
theorem readAttachment_pair (ct dataTx : Option String) :
    Windows10.readAttachment (.mk "MessageAttachment" [] none
      [.mk "AttachmentContentType" [] ct [], .mk "AttachmentDataBase64String" [] dataTx []])
      = if ct = some "text/plain" ∨ ct = some "application/smil" then do
          let dataB ← orRaise dataTx "TypeError: b64decode argument must not be None"
          let t ← decode_text dataB
          .ok { content_type := ct, text := some t }
        else .ok { content_type := ct, data_base64 := dataTx } := by
  rw [Windows10.readAttachment]
  simp [find1, childrenTagged, Element.children, Element.tag, Element.text]

/-- One attachment survives the format-B encode, serialize, parse, decode. -/
theorem readAttachment_writeAttachment (a : Attachment) (hsafe : AttSafe a) :
    ∃ el, Windows10.writeAttachment a = .ok el ∧ el.tag = "MessageAttachment"
      ∧ Windows10.readAttachment (wireNorm el) = .ok a := by
  obtain ⟨hct, hdb, htx, hone, htype⟩ := hsafe
  cases hdbv : a.data_base64 with
  | some d =>
    -- pass-through payload; its content type is not a textual one
    have htnone : a.text = none := by
      by_contra htne
      have h0 : a.data_base64 = none := hone.mpr htne
      rw [h0] at hdbv
      exact Option.noConfusion hdbv
    have hctno : ¬(a.content_type = some "text/plain"
        ∨ a.content_type = some "application/smil") := fun hc =>
      absurd (htype.mpr hc) (by simp [htnone])
    have hdne : d ≠ "" := by simpa [hdbv] using hdb
    refine ⟨.mk "MessageAttachment" [] none
      [Windows10.elem "AttachmentContentType" a.content_type,
       Windows10.elem "AttachmentDataBase64String" (some d)], ?_, rfl, ?_⟩
    · rw [Windows10.writeAttachment, hdbv]
      rfl
    · simp only [Windows10.elem, wireNorm_mk, List.map_cons, List.map_nil]
      show Windows10.readAttachment (.mk "MessageAttachment" [] (collapseText none)
        [.mk "AttachmentContentType" [] (collapseText a.content_type) [],
         .mk "AttachmentDataBase64String" [] (collapseText (some d)) []]) = .ok a
      rw [show collapseText none = none from rfl,
        collapseText_of_ne_empty hct,
        collapseText_of_ne_empty (show some d ≠ some "" by simpa using hdne),
        readAttachment_pair, if_neg hctno, ← hdbv, ← htnone]
  | none =>
    have htval : ∃ t, a.text = some t := by
      have := hone.mp hdbv
      cases htv : a.text with
      | none => exact absurd htv this
      | some t => exact ⟨t, rfl⟩
    obtain ⟨t, htv⟩ := htval
    have hct2 : a.content_type = some "text/plain"
        ∨ a.content_type = some "application/smil" := htype.mp (by simp [htv])
    have htne : t ≠ "" := by simpa [htv] using htx
    refine ⟨.mk "MessageAttachment" [] none
      [Windows10.elem "AttachmentContentType" a.content_type,
       Windows10.elem "AttachmentDataBase64String" (some (encode_text t))], ?_, rfl, ?_⟩
    · rw [Windows10.writeAttachment, hdbv, htv]
      rfl
    · simp only [Windows10.elem, wireNorm_mk, List.map_cons, List.map_nil]
      show Windows10.readAttachment (.mk "MessageAttachment" [] (collapseText none)
        [.mk "AttachmentContentType" [] (collapseText a.content_type) [],
         .mk "AttachmentDataBase64String" [] (collapseText (some (encode_text t))) []]) = .ok a
      rw [show collapseText none = none from rfl,
        collapseText_of_ne_empty hct,
        collapseText_of_ne_empty
          (show some (encode_text t) ≠ some "" by simpa using encode_text_ne_empty t htne),
        readAttachment_pair, if_pos hct2, orRaise_some, ok_bind,
        decode_text_encode_text, ok_bind, ← htv, ← hdbv]

/-- Every attachment of a list survives the format-B round trip. -/
theorem mapME_writeAttachment (l : List Attachment) (h : ∀ a ∈ l, AttSafe a) :
    ∃ els, mapME Windows10.writeAttachment l = .ok els
      ∧ (∀ el ∈ els, el.tag = "MessageAttachment")
      ∧ mapME Windows10.readAttachment (els.map wireNorm) = .ok l := by
  induction l with
  | nil => exact ⟨[], rfl, by simp, rfl⟩
  | cons a as ih =>
    obtain ⟨els, hw, htags, hr⟩ := ih (fun x hx => h x (by simp [hx]))
    obtain ⟨el, hwel, htag, hrel⟩ := readAttachment_writeAttachment a (h a (by simp))
    refine ⟨el :: els, mapME_cons_ok _ _ _ _ _ hwel hw, ?_, ?_⟩
    · intro x hx
      rcases List.mem_cons.mp hx with rfl | hx
      · exact htag
      · exact htags x hx
    · rw [List.map_cons]
      exact mapME_cons_ok _ _ _ _ _ hrel hr

/-- Evaluation of `readMessage` on the element shape the encoder emits. -/
theorem readMessage_shape (recepChildren : List Element)
    (bodyTx iiTx irTx ltTx sndTx : Option String) (attChildren : List Element) :
    Windows10.readMessage (.mk "Message" [] none
      [.mk "Recepients" [] none recepChildren,
       .mk "Body" [] bodyTx [],
       .mk "IsIncoming" [] iiTx [],
       .mk "IsRead" [] irTx [],
       .mk "Attachments" [] none attChildren,
       .mk "LocalTimestamp" [] ltTx [],
       .mk "Sender" [] sndTx []])
      = (do
          let ltText ← orRaise ltTx "TypeError: int() argument must not be None"
          let ticks ← orRaise (strToInt ltText) "ValueError: invalid literal for int()"
          let atts ← mapME Windows10.readAttachment
            (attChildren.filter (fun c => c.tag = "MessageAttachment"))
          .ok {
            timestamp := (Windows10.decode_B_time ticks).1
            timestamp_ns := (Windows10.decode_B_time ticks).2
            sender := sndTx
            recipients := (recepChildren.filter
              (fun c => c.tag = "string")).filterMap Element.text
            body := bodyTx
            is_read := irTx == some "true"
            attachments := atts }) := by
  rw [Windows10.readMessage]
  simp [find1, childrenTagged, iterPath2, Windows10.get_attachments,
    Element.children, Element.tag, Element.text]

/-- Decoding the emitted `Recepients/string` children recovers the recipient
list, none of whose entries is the empty string. -/
theorem recipients_roundtrip (rs : List String) (h : ∀ r ∈ rs, r ≠ "") :
    ((rs.map (fun r => Element.mk "string" [] (collapseText (some r)) [])).filter
      (fun c => c.tag = "string")).filterMap Element.text = rs := by
  induction rs with
  | nil => rfl
  | cons r rs ih =>
    have hr : r ≠ "" := h r (by simp)
    simp [Element.tag, Element.text, List.filter_cons,
      collapseText_of_ne_empty (show some r ≠ some "" by simpa using hr)]
    exact ih (fun x hx => h x (by simp [hx]))

/-- Exact tick round trip when `timestamp_ns` is a multiple of 100. -/
theorem decode_encode_B_time_exact (s ns : Int) (h0 : 0 ≤ ns) (h1 : ns < 1000000000)
    (h2 : ns % 100 = 0) :
    Windows10.decode_B_time (Windows10.encode_B_time s ns) = (s, ns) := by
  rw [decode_B_time_encode_B_time s ns h0 h1, pyDiv_eq_ediv _ (by norm_num),
    Int.ediv_mul_cancel (Int.dvd_of_emod_eq_zero h2)]

/-- A tag-preserving filter over the wire-normalized encoder output keeps
every element. -/
theorem filter_tag_wireNorm (els : List Element) (t : String)
    (h : ∀ el ∈ els, el.tag = t) :
    (els.map wireNorm).filter (fun c => c.tag = t) = els.map wireNorm := by
  apply List.filter_eq_self.mpr
  intro x hx
  obtain ⟨el, hel, rfl⟩ := List.mem_map.mp hx
  simp [wireNorm_tag, h el hel]

/-- One message survives the format-B encode, serialize, parse, decode. -/
theorem writeMessage_readMessage_B (m : Message) (h : RoundSafeB m) :
    ∃ el, Windows10.writeMessage m = .ok el ∧ el.tag = "Message"
      ∧ Windows10.readMessage (wireNorm el) = .ok m := by
  obtain ⟨h0, h1, h2, hsender, hbody, hrec, hatt⟩ := h
  obtain ⟨els, hw, htags, hr⟩ := mapME_writeAttachment m.attachments hatt
  refine ⟨.mk "Message" [] none
      [.mk "Recepients" [] none
        (m.recipients.map (fun r => Windows10.elem "string" (some r))),
       Windows10.elem "Body" (some (m.body.getD "")),
       Windows10.elem "IsIncoming" (some (if m.sender.isSome then "true" else "false")),
       Windows10.elem "IsRead" (some (if m.is_read then "true" else "false")),
       .mk "Attachments" [] none els,
       Windows10.elem "LocalTimestamp"
         (some (intToStr (Windows10.encode_B_time m.timestamp m.timestamp_ns))),
       Windows10.elem "Sender" (some (m.sender.getD ""))], ?_, rfl, ?_⟩
  · rw [Windows10.writeMessage, hw, ok_bind]
  · simp only [Windows10.elem, wireNorm_mk, List.map_cons, List.map_nil, List.map_map]
    rw [show collapseText none = none from rfl]
    rw [collapseText_getD hbody, collapseText_getD hsender,
      collapseText_of_ne_empty
        (show some (if m.sender.isSome then "true" else "false") ≠ some "" by
          split <;> simp),
      collapseText_of_ne_empty
        (show some (if m.is_read then "true" else "false") ≠ some "" by
          split <;> simp),
      collapseText_of_ne_empty
        (show some (intToStr (Windows10.encode_B_time m.timestamp m.timestamp_ns))
            ≠ some "" by simpa using intToStr_ne_empty _)]
    rw [show (wireNorm ∘ fun r => Element.mk "string" [] (some r) [])
        = fun r => Element.mk "string" [] (collapseText (some r)) [] from
      funext (fun r => by
        show wireNorm (Element.mk "string" [] (some r) []) = _
        rw [wireNorm_mk, List.map_nil])]
    rw [readMessage_shape, orRaise_some, ok_bind, strToInt_intToStr, orRaise_some, ok_bind,
      filter_tag_wireNorm els "MessageAttachment" htags, hr, ok_bind,
      recipients_roundtrip m.recipients hrec,
      decode_encode_B_time_exact m.timestamp m.timestamp_ns h0 h1 h2]
    cases hread : m.is_read <;> cases m <;> simp_all

/-- Every message of a list survives the format-B round trip. -/
theorem mapME_writeMessage_B (M : List Message) (h : ∀ m ∈ M, RoundSafeB m) :
    ∃ els, mapME Windows10.writeMessage M = .ok els
      ∧ (∀ el ∈ els, el.tag = "Message")
      ∧ mapME Windows10.readMessage (els.map wireNorm) = .ok M := by
  induction M with
  | nil => exact ⟨[], rfl, by simp, rfl⟩
  | cons m ms ih =>
    obtain ⟨els, hw, htags, hr⟩ := ih (fun x hx => h x (by simp [hx]))
    obtain ⟨el, hwel, htag, hrel⟩ := writeMessage_readMessage_B m (h m (by simp))
    refine ⟨el :: els, mapME_cons_ok _ _ _ _ _ hwel hw, ?_, ?_⟩
    · intro x hx
      rcases List.mem_cons.mp hx with rfl | hx
      · exact htag
      · exact htags x hx
    · rw [List.map_cons]
      exact mapME_cons_ok _ _ _ _ _ hrel hr

/-- C2 counterexample: the claimed exact round trip for every message list
fails already on a message whose `timestamp_ns` is 50: the tick encoding
truncates to 100 ns, so the message decodes with `timestamp_ns = 0`. -/
theorem roundtripB_not_exact :
    roundtripB [⟨0, 50, none, [], none, false, []⟩]
        = .ok [⟨0, 0, none, [], none, false, []⟩]
      ∧ ([⟨0, 50, none, [], none, false, []⟩] : List Message)
        ≠ [⟨0, 0, none, [], none, false, []⟩] := by decide

/-- C2 amended: the format-B round trip `decode_B(encode_B(M)) = M` is exact
for every message list whose messages are `RoundSafeB`: `timestamp_ns` in
range and a multiple of 100 (the 100-ns tick resolution), sender, body,
recipients and attachment fields not the empty string (which the XML text
layer turns into `None`), and each attachment carrying exactly one payload
field, the `text` one precisely for the UTF-16LE content types
`text/plain` / `application/smil`. -/
theorem roundtripB_exact (M : List Message) (h : ∀ m ∈ M, RoundSafeB m) :
    roundtripB M = .ok M := by
  obtain ⟨els, hw, htags, hr⟩ := mapME_writeMessage_B M h
  rw [roundtripB, Windows10.write, hw, ok_bind, ok_bind]
  rw [Windows10.read, wireNorm_mk, childrenTagged]
  show mapME Windows10.readMessage
    ((els.map wireNorm).filter (fun c => c.tag = "Message")) = .ok M
  rw [filter_tag_wireNorm els "Message" htags, hr]

/-- C2 witness input: a mixed pair of well-formed messages. -/
def c2msgs : List Message :=
  [⟨-5, 0, none, [], none, false, []⟩,
   ⟨100, 4400, some "777", ["888", "999"], some "yo", true,
     [⟨some "text/plain", none, some "hi"⟩, ⟨some "image/png", some "AAAA", none⟩]⟩]

/-- C2 witness: the amended round trip at a concrete list. -/
theorem roundtripB_exact_witness : roundtripB c2msgs = .ok c2msgs :=
  roundtripB_exact c2msgs (by decide)

/-! ### Round trip through format A (C1) -/

/-- Attachment-free (SMS-class) message well-formedness for the format-A
round trip: a string body (the claim's own invariant); a non-falsy sender
with no stray recipients when incoming, exactly one recipient when
outgoing — anything else the encode/decode pair visibly cannot restore. -/
def SmsSafe (m : Message) : Prop :=
  m.body ≠ none ∧
  (m.sender = none → m.recipients.length = 1) ∧
  (m.sender ≠ none → m.sender ≠ some "" ∧ m.recipients = [])

/-- MMS-class message well-formedness for the format-A round trip: no body
(the data model keeps MMS text in attachments), well-formed attachments,
no `~` (the roster separator) inside any participant address, and an owner
number whose normalization collides with no participant of an incoming
message. -/
def MmsSafe (you : String) (m : Message) : Prop :=
  m.body = none ∧
  (∀ a ∈ m.attachments, a.content_type ≠ none ∧ (a.data_base64 = none ↔ a.text ≠ none)) ∧
  (∀ p ∈ m.recipients ++ m.sender.toList, '~' ∉ p.data) ∧
  (m.sender ≠ none → normStr you ∉ (m.recipients ++ m.sender.toList).map normStr)

/-- Per-message well-formedness for the format-A round trip. -/
def RoundSafeA (you : String) (m : Message) : Prop :=
  0 ≤ m.timestamp_ns ∧ m.timestamp_ns < 1000000000 ∧
  (m.attachments = [] → SmsSafe m) ∧ (m.attachments ≠ [] → MmsSafe you m)

instance (m : Message) : Decidable (SmsSafe m) := by
  unfold SmsSafe
  infer_instance

instance (you : String) (m : Message) : Decidable (MmsSafe you m) := by
  unfold MmsSafe
  infer_instance

instance (you : String) (m : Message) : Decidable (RoundSafeA you m) := by
  unfold RoundSafeA
  infer_instance

/-- The millisecond date round trip: seconds exactly, nanoseconds truncated
to the stored millisecond. -/
theorem date_roundtrip (t ns : Int) (h0 : 0 ≤ ns) (h1 : ns < 1000000000) :
    pyDiv (t * 1000 + pyDiv ns 1000000) 1000 = t
    ∧ pyMod (t * 1000 + pyDiv ns 1000000) 1000 * 10 ^ 6 = pyDiv ns 1000000 * 1000000 := by
  rw [pyDiv_eq_ediv ns (by norm_num), pyDiv_eq_ediv _ (show (0:Int) ≤ 1000 by norm_num),
    pyMod_eq_emod _ (show (0:Int) ≤ 1000 by norm_num)]
  have hp : (10 : Int) ^ 6 = 1000000 := by norm_num
  rw [hp]
  constructor
  · omega
  · omega

/-- Evaluation of `from_sms` on the element shape the encoder emits. -/
theorem from_sms_shape (d ad ty b rd : String) :
    Android.from_sms (.mk "sms"
      [("date", d), ("address", ad), ("type", ty), ("body", b), ("read", rd)] none [])
      = (do
          let date ← orRaise (strToInt d) "ValueError: invalid literal for int()"
          .ok {
            timestamp := pyDiv date 1000
            timestamp_ns := pyMod date 1000 * 10 ^ 6
            sender := if some ty = some Android.RECEIVED then some ad else none
            recipients := if some ty = some Android.SENT then [ad] else []
            body := some b
            is_read := some rd == some "1"
            attachments := [] }) := by
  rw [Android.from_sms]
  rfl

/-- Evaluation of `Android.writeMessage` on an attachment-free message. -/
theorem writeMessage_sms (you : String) (m : Message) (hatt : m.attachments = []) :
    Android.writeMessage you m
      = Android.senderOrFirstRecipient m.sender m.recipients >>= fun address =>
        .ok (.mk "sms"
          [("date", intToStr (m.timestamp * 1000 + pyDiv m.timestamp_ns 1000000)),
           ("address", address),
           ("type", if m.sender.isSome then Android.RECEIVED else Android.SENT),
           ("body", m.body.getD ""), ("read", if m.is_read then "1" else "0")]
          none []) := by
  rw [Android.writeMessage, hatt]

/-- Evaluation of `Android.writeMessage` on a message with attachments. -/
theorem writeMessage_mms (you : String) (m : Message) (a0 : Attachment)
    (as0 : List Attachment) (hatt : m.attachments = a0 :: as0) :
    Android.writeMessage you m
      = mapME Android.writePart m.attachments >>= fun parts =>
        .ok (.mk "mms"
          [("m_type", if m.sender.isSome then "132" else "128"),
           ("msg_box", if m.sender.isSome then Android.RECEIVED else Android.SENT),
           ("date", intToStr (m.timestamp * 1000 + pyDiv m.timestamp_ns 1000000)),
           ("address", Android.joinTilde (pySorted (m.recipients ++ m.sender.toList))),
           ("read", if m.is_read then "1" else "0")]
          none
          [.mk "parts" [] none parts,
           .mk "addrs" [] none
             ((match m.sender with
               | some s => [Android.addr Android.FROM s, Android.addr Android.TO you]
               | none => [Android.addr Android.FROM you])
               ++ m.recipients.map (Android.addr Android.TO))]) := by
  rw [Android.writeMessage, hatt]

/-- One attachment-free message survives the format-A round trip, up to
millisecond truncation of `timestamp_ns`. -/
theorem writeMessage_read_A_sms (you : String) (m : Message)
    (h0 : 0 ≤ m.timestamp_ns) (h1 : m.timestamp_ns < 1000000000)
    (hatt : m.attachments = []) (hs : SmsSafe m) :
    ∃ el, Android.writeMessage you m = .ok el ∧ el.tag = "sms"
      ∧ Android.from_sms (wireNorm el) = .ok (truncMs m) := by
  obtain ⟨ts, ns, snd, rcp, bd, ird, att⟩ := m
  obtain ⟨hbody, hout, hin⟩ := hs
  subst hatt
  obtain ⟨b, hb⟩ : ∃ b, bd = some b := Option.ne_none_iff_exists'.mp hbody
  subst hb
  cases hsv : snd with
  | some s =>
    obtain ⟨hse, hre⟩ := hin (by simp [hsv])
    subst hsv
    have hsne : s ≠ "" := by simpa using hse
    simp only at hre
    subst hre
    have hw : Android.writeMessage you ⟨ts, ns, some s, [], some b, ird, []⟩
        = .ok (.mk "sms"
          [("date", intToStr (ts * 1000 + pyDiv ns 1000000)),
           ("address", s), ("type", Android.RECEIVED),
           ("body", b), ("read", if ird then "1" else "0")] none []) := by
      rw [writeMessage_sms you _ rfl]
      show Android.senderOrFirstRecipient (some s) [] >>= _ = _
      rw [Android.senderOrFirstRecipient]
      rw [if_neg hsne, ok_bind]
      rfl
    refine ⟨_, hw, rfl, ?_⟩
    rw [show wireNorm (.mk "sms"
        [("date", intToStr (ts * 1000 + pyDiv ns 1000000)),
         ("address", s), ("type", Android.RECEIVED),
         ("body", b), ("read", if ird then "1" else "0")] none [])
      = .mk "sms"
        [("date", intToStr (ts * 1000 + pyDiv ns 1000000)),
         ("address", s), ("type", Android.RECEIVED),
         ("body", b), ("read", if ird then "1" else "0")] none [] from by
      rw [wireNorm_mk]
      rfl]
    have hird : (some (if ird then "1" else "0") == some "1") = ird := by
      cases ird <;> rfl
    rw [from_sms_shape, strToInt_intToStr, orRaise_some, ok_bind,
      (date_roundtrip ts ns h0 h1).1, (date_roundtrip ts ns h0 h1).2, hird, truncMs]
    rfl
  | none =>
    have hlen := hout hsv
    subst hsv
    simp only at hlen
    obtain ⟨r, hr⟩ : ∃ r, rcp = [r] := by
      cases rcp with
      | nil => simp at hlen
      | cons a l =>
        cases l with
        | nil => exact ⟨a, rfl⟩
        | cons b2 l2 => simp at hlen
    subst hr
    have hw : Android.writeMessage you ⟨ts, ns, none, [r], some b, ird, []⟩
        = .ok (.mk "sms"
          [("date", intToStr (ts * 1000 + pyDiv ns 1000000)),
           ("address", r), ("type", Android.SENT),
           ("body", b), ("read", if ird then "1" else "0")] none []) := by
      rw [writeMessage_sms you _ rfl]
      rfl
    refine ⟨_, hw, rfl, ?_⟩
    rw [show wireNorm (.mk "sms"
        [("date", intToStr (ts * 1000 + pyDiv ns 1000000)),
         ("address", r), ("type", Android.SENT),
         ("body", b), ("read", if ird then "1" else "0")] none [])
      = .mk "sms"
        [("date", intToStr (ts * 1000 + pyDiv ns 1000000)),
         ("address", r), ("type", Android.SENT),
         ("body", b), ("read", if ird then "1" else "0")] none [] from by
      rw [wireNorm_mk]
      rfl]
    have hird : (some (if ird then "1" else "0") == some "1") = ird := by
      cases ird <;> rfl
    rw [from_sms_shape, strToInt_intToStr, orRaise_some, ok_bind,
      (date_roundtrip ts ns h0 h1).1, (date_roundtrip ts ns h0 h1).2, hird, truncMs]
    rfl

/-- `wireNorm` does nothing to an `addr` element (no text, no children). -/
theorem wireNorm_addr (role x : String) :
    wireNorm (Android.addr role x) = Android.addr role x := by
  rw [Android.addr, wireNorm_mk]
  rfl

/-- One attachment survives the format-A part encode/decode. -/
theorem readPart_writePart (a : Attachment) (hct : a.content_type ≠ none)
    (hone : a.data_base64 = none ↔ a.text ≠ none) :
    ∃ el, Android.writePart a = .ok el ∧ el.tag = "part"
      ∧ Android.readPart (wireNorm el) = a := by
  obtain ⟨ct, hctv⟩ : ∃ ct, a.content_type = some ct := Option.ne_none_iff_exists'.mp hct
  cases htv : a.text with
  | some t =>
    have hdb : a.data_base64 = none := hone.mpr (by simp [htv])
    refine ⟨.mk "part" [("chset", Android.UTF_8), ("ct", ct), ("text", t)] none [],
      ?_, rfl, ?_⟩
    · rw [Android.writePart, hctv, orRaise_some, ok_bind, htv]
    · rw [show wireNorm (.mk "part" [("chset", Android.UTF_8), ("ct", ct), ("text", t)]
            none [])
          = .mk "part" [("chset", Android.UTF_8), ("ct", ct), ("text", t)] none [] from by
        rw [wireNorm_mk]
        rfl]
      rw [Android.readPart]
      cases a
      simp only at hctv hdb htv
      subst hctv
      subst hdb
      subst htv
      rfl
  | none =>
    have hdb : ∃ d, a.data_base64 = some d := by
      rcases hd : a.data_base64 with _ | ⟨d⟩
      · exact absurd htv (hone.mp hd)
      · exact ⟨d, rfl⟩
    obtain ⟨d, hdv⟩ := hdb
    refine ⟨.mk "part" [("chset", Android.UTF_8), ("ct", ct), ("data", d)] none [],
      ?_, rfl, ?_⟩
    · rw [Android.writePart, hctv, orRaise_some, ok_bind, htv, hdv, orRaise_some, ok_bind]
    · rw [show wireNorm (.mk "part" [("chset", Android.UTF_8), ("ct", ct), ("data", d)]
            none [])
          = .mk "part" [("chset", Android.UTF_8), ("ct", ct), ("data", d)] none [] from by
        rw [wireNorm_mk]
        rfl]
      rw [Android.readPart]
      cases a
      simp only at hctv hdv htv
      subst hctv
      subst hdv
      subst htv
      rfl

/-- Every attachment of a list survives the format-A part round trip. -/
theorem mapME_writePart (l : List Attachment)
    (h : ∀ a ∈ l, a.content_type ≠ none ∧ (a.data_base64 = none ↔ a.text ≠ none)) :
    ∃ els, mapME Android.writePart l = .ok els
      ∧ (∀ el ∈ els, el.tag = "part")
      ∧ (els.map wireNorm).map Android.readPart = l := by
  induction l with
  | nil => exact ⟨[], rfl, by simp, rfl⟩
  | cons a as ih =>
    obtain ⟨els, hw, htags, hr⟩ := ih (fun x hx => h x (by simp [hx]))
    obtain ⟨el, hwel, htag, hrel⟩ :=
      readPart_writePart a (h a (by simp)).1 (h a (by simp)).2
    refine ⟨el :: els, mapME_cons_ok _ _ _ _ _ hwel hw, ?_, ?_⟩
    · intro x hx
      rcases List.mem_cons.mp hx with rfl | hx
      · exact htag
      · exact htags x hx
    · rw [List.map_cons, List.map_cons, hrel, hr]

/-- Splitting the joined roster recovers it when it is non-empty and
separator-free. -/
theorem splitTilde_joinTilde (ps : List String) (hne : ps ≠ [])
    (hsep : ∀ p ∈ ps, '~' ∉ p.data) : Android.splitTilde (Android.joinTilde ps) = ps := by
  rw [Android.splitTilde, Android.joinTilde]
  show (splitChar '~' (joinChar '~' (ps.map String.data))).map String.mk = ps
  rw [splitChar_joinChar '~' (ps.map String.data) (by simpa using hne)
    (fun p hp => by
      obtain ⟨x, hx, rfl⟩ := List.mem_map.mp hp
      exact hsep x hx)]
  rw [List.map_map]
  have hid : (String.mk ∘ String.data) = (id : String → String) := funext (fun s => rfl)
  rw [hid, List.map_id]

/-- Evaluation of `from_mms` on the element shape the encoder emits. -/
theorem from_mms_shape (mt mb d adr rd : String) (parts addrs : List Element) :
    Android.from_mms (.mk "mms"
      [("m_type", mt), ("msg_box", mb), ("date", d), ("address", adr), ("read", rd)]
      none [.mk "parts" [] none parts, .mk "addrs" [] none addrs])
      = (orRaise (strToInt d) "ValueError: invalid literal for int()"
          >>= fun date =>
          (if some mb = some Android.RECEIVED then
            orRaise ((addrs.filter (fun c => c.tag = "addr")).filter
                (fun a => a.get "type" == some Android.FROM)).head?
                "AttributeError: NoneType has no attribute get"
              >>= fun fromAddr => .ok (fromAddr.get "address")
          else .ok none)
          >>= fun sender =>
          .ok {
            timestamp := pyDiv date 1000
            timestamp_ns := pyMod date 1000 * 10 ^ 6
            sender := sender
            recipients := (((addrs.filter (fun c => c.tag = "addr")).filter
                (fun a => a.get "type" == some Android.TO)).filter
                (fun a =>
                  match a.get "address" with
                  | some ad =>
                    ((Android.splitTilde adr).map normStr).contains (normStr ad)
                  | none => false)).filterMap (fun a => a.get "address")
            body := none
            is_read := some rd == some "1"
            attachments := (parts.filter (fun c => c.tag = "part")).map Android.readPart }) := by
  have hTO : Android.addrsWithRole (.mk "mms"
      [("m_type", mt), ("msg_box", mb), ("date", d), ("address", adr), ("read", rd)]
      none [.mk "parts" [] none parts, .mk "addrs" [] none addrs]) Android.TO
      = (addrs.filter (fun c => c.tag = "addr")).filter
          (fun a => a.get "type" == some Android.TO) := by
    rw [Android.addrsWithRole, iterPath2,
      show childrenTagged (Element.mk "mms"
        [("m_type", mt), ("msg_box", mb), ("date", d), ("address", adr), ("read", rd)]
        none [.mk "parts" [] none parts, .mk "addrs" [] none addrs]) "addrs"
        = [.mk "addrs" [] none addrs] from rfl,
      List.flatMap_cons, List.flatMap_nil, List.append_nil]
    rfl
  have hFROM : Android.addrsWithRole (.mk "mms"
      [("m_type", mt), ("msg_box", mb), ("date", d), ("address", adr), ("read", rd)]
      none [.mk "parts" [] none parts, .mk "addrs" [] none addrs]) Android.FROM
      = (addrs.filter (fun c => c.tag = "addr")).filter
          (fun a => a.get "type" == some Android.FROM) := by
    rw [Android.addrsWithRole, iterPath2,
      show childrenTagged (Element.mk "mms"
        [("m_type", mt), ("msg_box", mb), ("date", d), ("address", adr), ("read", rd)]
        none [.mk "parts" [] none parts, .mk "addrs" [] none addrs]) "addrs"
        = [.mk "addrs" [] none addrs] from rfl,
      List.flatMap_cons, List.flatMap_nil, List.append_nil]
    rfl
  have hParts : Android.get_attachments (.mk "mms"
      [("m_type", mt), ("msg_box", mb), ("date", d), ("address", adr), ("read", rd)]
      none [.mk "parts" [] none parts, .mk "addrs" [] none addrs])
      = (parts.filter (fun c => c.tag = "part")).map Android.readPart := by
    rw [Android.get_attachments, iterPath2,
      show childrenTagged (Element.mk "mms"
        [("m_type", mt), ("msg_box", mb), ("date", d), ("address", adr), ("read", rd)]
        none [.mk "parts" [] none parts, .mk "addrs" [] none addrs]) "parts"
        = [.mk "parts" [] none parts] from rfl,
      List.flatMap_cons, List.flatMap_nil, List.append_nil]
    rfl
  rw [Android.from_mms]
  simp only [hTO, hFROM, hParts]
  rfl


/-- `pySorted` of a non-empty list is non-empty. -/
theorem pySorted_ne_nil (l : List String) (h : l ≠ []) : pySorted l ≠ [] := by
  cases l with
  | nil => exact absurd rfl h
  | cons a as =>
    rw [pySorted]
    generalize pySorted as = l2
    cases l2 with
    | nil => simp [insertSorted]
    | cons b bs =>
      rw [insertSorted]
      split <;> simp

/-- Membership in the normalized sorted roster is membership in the
normalized roster. -/
theorem mem_map_pySorted (x : String) (l : List String) :
    x ∈ (pySorted l).map normStr ↔ x ∈ l.map normStr := by
  constructor
  · intro hx
    obtain ⟨y, hy, rfl⟩ := List.mem_map.mp hx
    exact List.mem_map.mpr ⟨y, (mem_pySorted y l).mp hy, rfl⟩
  · intro hx
    obtain ⟨y, hy, rfl⟩ := List.mem_map.mp hx
    exact List.mem_map.mpr ⟨y, (mem_pySorted y l).mpr hy, rfl⟩

/-- Decoding the to-role addr elements of recipients whose normalizations are
all in `con` recovers the recipient list. -/
theorem toAddrs_decode (rs con : List String)
    (h : ∀ r ∈ rs, con.contains (normStr r) = true) :
    ((rs.map (Android.addr Android.TO)).filter
        (fun a =>
          match a.get "address" with
          | some ad => con.contains (normStr ad)
          | none => false)).filterMap (fun a => a.get "address") = rs := by
  induction rs with
  | nil => rfl
  | cons r rs ih =>
    rw [List.map_cons, List.filter_cons]
    rw [show (match (Android.addr Android.TO r).get "address" with
        | some ad => con.contains (normStr ad)
        | none => false) = con.contains (normStr r) from rfl]
    rw [h r (by simp), if_pos rfl, List.filterMap_cons]
    rw [show (Android.addr Android.TO r).get "address" = some r from rfl]
    rw [ih (fun x hx => h x (by simp [hx]))]

/-- To-role addr elements never pass the from-role filter. -/
theorem toAddrs_from_filter (rs : List String) :
    (rs.map (Android.addr Android.TO)).filter
      (fun a => a.get "type" == some Android.FROM) = [] := by
  induction rs with
  | nil => rfl
  | cons r rs ih =>
    rw [List.map_cons, List.filter_cons]
    rw [show ((Android.addr Android.TO r).get "type" == some Android.FROM) = false from rfl]
    simpa using ih

/-- A list of addr elements is untouched by the tag filter. -/
theorem addr_map_tag_filter (rs : List String) (role : String) :
    (rs.map (Android.addr role)).filter (fun c => c.tag = "addr")
      = rs.map (Android.addr role) := by
  apply List.filter_eq_self.mpr
  intro x hx
  obtain ⟨r, _, rfl⟩ := List.mem_map.mp hx
  simp [Android.addr, Element.tag]

/-- `wireNorm` fixes a list of addr elements. -/
theorem addr_map_wireNorm (rs : List String) (role : String) :
    (rs.map (Android.addr role)).map wireNorm = rs.map (Android.addr role) := by
  rw [List.map_map]
  have hc : (wireNorm ∘ Android.addr role) = Android.addr role :=
    funext (fun r => wireNorm_addr role r)
  rw [hc]

/-- To-role addr elements all pass the to-role filter. -/
theorem toAddrs_to_filter (rs : List String) :
    (rs.map (Android.addr Android.TO)).filter
      (fun a => a.get "type" == some Android.TO) = rs.map (Android.addr Android.TO) := by
  apply List.filter_eq_self.mpr
  intro x hx
  obtain ⟨r, _, rfl⟩ := List.mem_map.mp hx
  rfl

/-- One message with attachments survives the format-A round trip, up to
millisecond truncation of `timestamp_ns`. -/
theorem writeMessage_read_A_mms (you : String) (m : Message) (a0 : Attachment)
    (as0 : List Attachment) (hatt : m.attachments = a0 :: as0)
    (h0 : 0 ≤ m.timestamp_ns) (h1 : m.timestamp_ns < 1000000000)
    (hm : MmsSafe you m) :
    ∃ el, Android.writeMessage you m = .ok el ∧ el.tag = "mms"
      ∧ Android.from_mms (wireNorm el) = .ok (truncMs m) := by
  obtain ⟨ts, ns, snd, rcp, bd, ird, att⟩ := m
  obtain ⟨hbody, hattOK, hsep, hyou⟩ := hm
  subst hbody
  subst hatt
  obtain ⟨els, hw, htags, hr⟩ := mapME_writePart (a0 :: as0) hattOK
  have hird : (some (if ird then "1" else "0") == some "1") = ird := by
    cases ird <;> rfl
  cases hsv : snd with
  | some s =>
    subst hsv
    have hyou2 := hyou (by simp)
    have hsort_ne : pySorted (rcp ++ [s]) ≠ [] := pySorted_ne_nil _ (by simp)
    have hsepS : ∀ p ∈ pySorted (rcp ++ [s]), '~' ∉ p.data := by
      intro p hp
      exact hsep p (by simpa using (mem_pySorted p _).mp hp)
    have hsplit : Android.splitTilde
          (Android.joinTilde (pySorted (rcp ++ [s]))) = pySorted (rcp ++ [s]) :=
      splitTilde_joinTilde _ hsort_ne hsepS
    have hcontains_r : ∀ r ∈ rcp,
        ((pySorted (rcp ++ [s])).map normStr).contains (normStr r) = true := by
      intro r hrr
      exact List.elem_iff.mpr
        ((mem_map_pySorted _ _).mpr (List.mem_map.mpr ⟨r, by simp [hrr], rfl⟩))
    have hcontains_you :
        ((pySorted (rcp ++ [s])).map normStr).contains (normStr you) = false := by
      have hnot : normStr you ∉ (pySorted (rcp ++ [s])).map normStr := by
        intro hmem
        exact hyou2 (by simpa using (mem_map_pySorted _ _).mp hmem)
      cases hcb : ((pySorted (rcp ++ [s])).map normStr).contains (normStr you) with
      | false => rfl
      | true => exact absurd (List.elem_iff.mp hcb) hnot
    have hwm : Android.writeMessage you ⟨ts, ns, some s, rcp, none, ird, a0 :: as0⟩
        = .ok (.mk "mms"
          [("m_type", "132"), ("msg_box", Android.RECEIVED),
           ("date", intToStr (ts * 1000 + pyDiv ns 1000000)),
           ("address", Android.joinTilde (pySorted (rcp ++ [s]))),
           ("read", if ird then "1" else "0")] none
          [.mk "parts" [] none els,
           .mk "addrs" [] none
             ([Android.addr Android.FROM s, Android.addr Android.TO you]
               ++ rcp.map (Android.addr Android.TO))]) := by
      rw [writeMessage_mms you _ a0 as0 rfl, hw, ok_bind]
      rfl
    refine ⟨_, hwm, rfl, ?_⟩
    have hmapaddrs : ([Android.addr Android.FROM s, Android.addr Android.TO you]
          ++ rcp.map (Android.addr Android.TO)).map wireNorm
        = [Android.addr Android.FROM s, Android.addr Android.TO you]
          ++ rcp.map (Android.addr Android.TO) := by
      rw [List.map_append, addr_map_wireNorm, List.map_cons, List.map_cons, List.map_nil,
        wireNorm_addr, wireNorm_addr]
    have hwn : wireNorm (.mk "mms"
          [("m_type", "132"), ("msg_box", Android.RECEIVED),
           ("date", intToStr (ts * 1000 + pyDiv ns 1000000)),
           ("address", Android.joinTilde (pySorted (rcp ++ [s]))),
           ("read", if ird then "1" else "0")] none
          [.mk "parts" [] none els,
           .mk "addrs" [] none
             ([Android.addr Android.FROM s, Android.addr Android.TO you]
               ++ rcp.map (Android.addr Android.TO))])
        = .mk "mms"
          [("m_type", "132"), ("msg_box", Android.RECEIVED),
           ("date", intToStr (ts * 1000 + pyDiv ns 1000000)),
           ("address", Android.joinTilde (pySorted (rcp ++ [s]))),
           ("read", if ird then "1" else "0")] none
          [.mk "parts" [] none (els.map wireNorm),
           .mk "addrs" [] none
             ([Android.addr Android.FROM s, Android.addr Android.TO you]
               ++ rcp.map (Android.addr Android.TO))] := by
      rw [wireNorm_mk, List.map_cons, List.map_cons, List.map_nil, wireNorm_mk,
        wireNorm_mk, hmapaddrs]
      rfl
    rw [hwn, from_mms_shape, strToInt_intToStr, orRaise_some, ok_bind, if_pos rfl]
    have hfrom : ((([Android.addr Android.FROM s, Android.addr Android.TO you]
            ++ rcp.map (Android.addr Android.TO)).filter
          (fun c => c.tag = "addr")).filter
          (fun a => a.get "type" == some Android.FROM))
        = [Android.addr Android.FROM s] := by
      rw [List.filter_append, addr_map_tag_filter,
        show ([Android.addr Android.FROM s, Android.addr Android.TO you].filter
          (fun c => c.tag = "addr"))
          = [Android.addr Android.FROM s, Android.addr Android.TO you] from rfl,
        List.filter_append, toAddrs_from_filter,
        show ([Android.addr Android.FROM s, Android.addr Android.TO you].filter
          (fun a => a.get "type" == some Android.FROM))
          = [Android.addr Android.FROM s] from rfl,
        List.append_nil]
    have hto : ((([Android.addr Android.FROM s, Android.addr Android.TO you]
            ++ rcp.map (Android.addr Android.TO)).filter
          (fun c => c.tag = "addr")).filter
          (fun a => a.get "type" == some Android.TO))
        = Android.addr Android.TO you :: rcp.map (Android.addr Android.TO) := by
      rw [List.filter_append, addr_map_tag_filter,
        show ([Android.addr Android.FROM s, Android.addr Android.TO you].filter
          (fun c => c.tag = "addr"))
          = [Android.addr Android.FROM s, Android.addr Android.TO you] from rfl,
        List.filter_append, toAddrs_to_filter,
        show ([Android.addr Android.FROM s, Android.addr Android.TO you].filter
          (fun a => a.get "type" == some Android.TO))
          = [Android.addr Android.TO you] from rfl]
      rfl
    rw [hfrom, hto, hsplit]
    rw [List.filter_cons,
      show (match (Android.addr Android.TO you).get "address" with
        | some ad => ((pySorted (rcp ++ [s])).map normStr).contains (normStr ad)
        | none => false)
        = ((pySorted (rcp ++ [s])).map normStr).contains (normStr you) from rfl,
      hcontains_you]
    rw [if_neg (by simp), toAddrs_decode rcp _ hcontains_r]
    rw [filter_tag_wireNorm els "part" htags, hr,
      (date_roundtrip ts ns h0 h1).1, (date_roundtrip ts ns h0 h1).2, hird, truncMs]
    rfl
  | none =>
    subst hsv
    have hwm : Android.writeMessage you ⟨ts, ns, none, rcp, none, ird, a0 :: as0⟩
        = .ok (.mk "mms"
          [("m_type", "128"), ("msg_box", Android.SENT),
           ("date", intToStr (ts * 1000 + pyDiv ns 1000000)),
           ("address", Android.joinTilde (pySorted (rcp ++ []))),
           ("read", if ird then "1" else "0")] none
          [.mk "parts" [] none els,
           .mk "addrs" [] none
             ([Android.addr Android.FROM you] ++ rcp.map (Android.addr Android.TO))]) := by
      rw [writeMessage_mms you _ a0 as0 rfl, hw, ok_bind]
      rfl
    refine ⟨_, hwm, rfl, ?_⟩
    have hmapaddrs : ([Android.addr Android.FROM you]
          ++ rcp.map (Android.addr Android.TO)).map wireNorm
        = [Android.addr Android.FROM you] ++ rcp.map (Android.addr Android.TO) := by
      rw [List.map_append, addr_map_wireNorm, List.map_cons, List.map_nil, wireNorm_addr]
    have hwn : wireNorm (.mk "mms"
          [("m_type", "128"), ("msg_box", Android.SENT),
           ("date", intToStr (ts * 1000 + pyDiv ns 1000000)),
           ("address", Android.joinTilde (pySorted (rcp ++ []))),
           ("read", if ird then "1" else "0")] none
          [.mk "parts" [] none els,
           .mk "addrs" [] none
             ([Android.addr Android.FROM you] ++ rcp.map (Android.addr Android.TO))])
        = .mk "mms"
          [("m_type", "128"), ("msg_box", Android.SENT),
           ("date", intToStr (ts * 1000 + pyDiv ns 1000000)),
           ("address", Android.joinTilde (pySorted (rcp ++ []))),
           ("read", if ird then "1" else "0")] none
          [.mk "parts" [] none (els.map wireNorm),
           .mk "addrs" [] none
             ([Android.addr Android.FROM you] ++ rcp.map (Android.addr Android.TO))] := by
      rw [wireNorm_mk, List.map_cons, List.map_cons, List.map_nil, wireNorm_mk,
        wireNorm_mk, hmapaddrs]
      rfl
    rw [hwn, from_mms_shape, strToInt_intToStr, orRaise_some, ok_bind,
      if_neg (by decide), ok_bind]
    have hto : ((([Android.addr Android.FROM you]
            ++ rcp.map (Android.addr Android.TO)).filter
          (fun c => c.tag = "addr")).filter
          (fun a => a.get "type" == some Android.TO))
        = rcp.map (Android.addr Android.TO) := by
      rw [List.filter_append, addr_map_tag_filter,
        show ([Android.addr Android.FROM you].filter (fun c => c.tag = "addr"))
          = [Android.addr Android.FROM you] from rfl,
        List.filter_append, toAddrs_to_filter,
        show ([Android.addr Android.FROM you].filter
          (fun a => a.get "type" == some Android.TO)) = [] from rfl,
        List.nil_append]
    rw [hto]
    cases rcp with
    | nil =>
      rw [filter_tag_wireNorm els "part" htags, hr,
        (date_roundtrip ts ns h0 h1).1, (date_roundtrip ts ns h0 h1).2, hird, truncMs]
      rfl
    | cons r0 rs0 =>
      have hsort_ne : pySorted ((r0 :: rs0) ++ []) ≠ [] := pySorted_ne_nil _ (by simp)
      have hsepS : ∀ p ∈ pySorted ((r0 :: rs0) ++ []), '~' ∉ p.data := by
        intro p hp
        exact hsep p (by simpa using (mem_pySorted p _).mp hp)
      have hsplit : Android.splitTilde
            (Android.joinTilde (pySorted ((r0 :: rs0) ++ [])))
          = pySorted ((r0 :: rs0) ++ []) :=
        splitTilde_joinTilde _ hsort_ne hsepS
      have hcontains_r : ∀ r ∈ r0 :: rs0,
          ((pySorted ((r0 :: rs0) ++ [])).map normStr).contains (normStr r) = true := by
        intro r hrr
        exact List.elem_iff.mpr
          ((mem_map_pySorted _ _).mpr (List.mem_map.mpr ⟨r, by simpa using hrr, rfl⟩))
      rw [hsplit, toAddrs_decode _ _ hcontains_r]
      rw [filter_tag_wireNorm els "part" htags, hr,
        (date_roundtrip ts ns h0 h1).1, (date_roundtrip ts ns h0 h1).2, hird, truncMs]

/-- One message survives the format-A round trip through the per-child
dispatch of `Android.read`, up to millisecond truncation. -/
theorem writeMessage_read_A (you : String) (m : Message) (h : RoundSafeA you m) :
    ∃ el, Android.writeMessage you m = .ok el
      ∧ (if (wireNorm el).tag = "sms" then Android.from_sms (wireNorm el)
         else Android.from_mms (wireNorm el)) = .ok (truncMs m) := by
  obtain ⟨h0, h1, hsms, hmms⟩ := h
  cases hatt : m.attachments with
  | nil =>
    obtain ⟨el, hw, htag, hd⟩ := writeMessage_read_A_sms you m h0 h1 hatt (hsms hatt)
    refine ⟨el, hw, ?_⟩
    rw [wireNorm_tag, htag, if_pos rfl]
    exact hd
  | cons a0 as0 =>
    obtain ⟨el, hw, htag, hd⟩ :=
      writeMessage_read_A_mms you m a0 as0 hatt h0 h1 (hmms (by simp [hatt]))
    refine ⟨el, hw, ?_⟩
    rw [wireNorm_tag, htag, if_neg (by decide)]
    exact hd

/-- Every message of a list survives the format-A round trip, up to
millisecond truncation. -/
theorem mapME_writeMessage_A (you : String) (M : List Message)
    (h : ∀ m ∈ M, RoundSafeA you m) :
    ∃ els, mapME (Android.writeMessage you) M = .ok els
      ∧ mapME (fun msg => if msg.tag = "sms" then Android.from_sms msg
          else Android.from_mms msg) (els.map wireNorm) = .ok (M.map truncMs) := by
  induction M with
  | nil => exact ⟨[], rfl, rfl⟩
  | cons m ms ih =>
    obtain ⟨els, hw, hr⟩ := ih (fun x hx => h x (by simp [hx]))
    obtain ⟨el, hwel, hrel⟩ := writeMessage_read_A you m (h m (by simp))
    refine ⟨el :: els, mapME_cons_ok _ _ _ _ _ hwel hw, ?_⟩
    rw [List.map_cons, List.map_cons]
    exact mapME_cons_ok _ _ _ _ _ hrel hr

/-- C1 counterexample: the message list consisting of one incoming SMS that
also carries a recipient satisfies the claimed invariants (it has a sender
and a string body) and has `timestamp_ns = 0`, yet the round trip erases the
recipient — the decoder returns empty recipients for every incoming SMS — so
the claimed identity modulo millisecond truncation fails. -/
theorem roundtripA_not_identity :
    roundtripA "99" [⟨0, 0, some "12", ["34"], some "b", true, []⟩]
        = .ok [⟨0, 0, some "12", [], some "b", true, []⟩]
      ∧ List.map truncMs [⟨0, 0, some "12", ["34"], some "b", true, []⟩]
        ≠ [⟨0, 0, some "12", [], some "b", true, []⟩] := by decide

/-- C1 amended: the format-A round trip returns the message list with
`timestamp_ns` truncated to whole milliseconds, for every owner phone number
and every list of `RoundSafeA` messages: SMS-class messages carry a string
body and either a non-empty-string sender with no recipient list (incoming)
or no sender and exactly one recipient (outgoing); MMS-class messages carry
no body, well-formed single-payload attachments, no `~` inside any
participant address, and — when incoming — an owner number that does not
normalize onto any participant. -/
theorem roundtripA_truncMs (you : String) (M : List Message)
    (h : ∀ m ∈ M, RoundSafeA you m) :
    roundtripA you M = .ok (M.map truncMs) := by
  obtain ⟨els, hw, hd⟩ := mapME_writeMessage_A you M h
  rw [roundtripA, Android.write, orRaise_some, ok_bind, hw, ok_bind, ok_bind]
  rw [Android.read, wireNorm_mk]
  exact hd

/-- C1 witness input: an incoming SMS, an outgoing SMS and an incoming MMS
with a binary and a textual attachment. -/
def c1msgs : List Message :=
  [⟨12, 500000000, some "12", [], some "hi", true, []⟩,
   ⟨5, 0, none, ["34"], some "", false, []⟩,
   ⟨7, 123456789, some "555", ["666"], none, true,
     [⟨some "image/jpeg", some "Zm9v", none⟩, ⟨some "text/plain", none, some "hello"⟩]⟩]

/-- C1 witness: the amended round trip at a concrete list (the MMS loses its
sub-millisecond remainder, the SMS keep their whole-millisecond stamps). -/
theorem roundtripA_truncMs_witness :
    roundtripA "99" c1msgs = .ok (c1msgs.map truncMs) :=
  roundtripA_truncMs "99" c1msgs (by decide)

end TextMe
